import Mathlib

/-!
Verification of the CPU SSE block kernel of the distributed Trotter-Suzuki
solver (`src/cpublocksse.cpp`, with declarations from `src/kernel.h`).

The embedding uses exact rational arithmetic (`ℚ`) in place of `float`: the
claims under study are structural (pairing, ordering, tiling, buffering), and
the specification states the tiling and invertibility properties for an
exact-arithmetic embedding.  A quadrant plane is a total function from
(row, column) to the stored scalar; the C code stores the same data as a flat
array with a row stride, so a 2D function indexed the same way is a faithful
model of the in-bounds content.

Loop bounds that the C code computes in `size_t` arithmetic are modelled
either with `usub64` (explicit wrap-around, where the wrap is the subject of
a claim) or with truncated `ℕ` subtraction (where every use in the program
satisfies the no-underflow side condition, stated as a hypothesis of the
corresponding theorems).
-/

namespace TrotterSuzuki

/-- A scalar plane of one parity quadrant: the value stored at (row, column).
The C code uses flat `float` arrays with a row stride; all claims here are
about in-bounds content, which this 2D view represents directly. -/
abbrev Plane : Type := ℕ → ℕ → ℚ

/-- One vertical-shift rotation pass, translated from `update_shifty_sse`
(`cpublocksse.cpp:31`).  The C loop runs `i` over `[0, height - offset_y)` and
`j` over `[0, width)`, pairing site `(i, j)` of the `(r1, i1)` plane with site
`(i + offset_y, j)` of the `(r2, i2)` plane and rotating each pair
simultaneously from the old values (the SSE lanes and the scalar remainder
loop compute the same per-element formula).  The result tuple is
`(r1', i1', r2', i2')`. -/
def update_shifty_sse (offset_y width height : ℕ) (a b : ℚ)
    (r1 i1 r2 i2 : Plane) : Plane × Plane × Plane × Plane :=
  (fun i j => if i < height - offset_y ∧ j < width
      then a * r1 i j - b * i2 (i + offset_y) j else r1 i j,
   fun i j => if i < height - offset_y ∧ j < width
      then a * i1 i j + b * r2 (i + offset_y) j else i1 i j,
   fun i j => if offset_y ≤ i ∧ i < height ∧ j < width
      then a * r2 i j - b * i1 (i - offset_y) j else r2 i j,
   fun i j => if offset_y ≤ i ∧ i < height ∧ j < width
      then a * i2 i j + b * r1 (i - offset_y) j else i2 i j)

/-- One horizontal-shift rotation pass, translated from `update_shiftx_sse`
(`cpublocksse.cpp:67`).  The C loop runs `i` over `[0, height)` and `j` over
`[0, width - offset_x)`, pairing site `(i, j)` of the `(r1, i1)` plane with
site `(i, j + offset_x)` of the `(r2, i2)` plane. -/
def update_shiftx_sse (offset_x width height : ℕ) (a b : ℚ)
    (r1 i1 r2 i2 : Plane) : Plane × Plane × Plane × Plane :=
  (fun i j => if i < height ∧ j < width - offset_x
      then a * r1 i j - b * i2 i (j + offset_x) else r1 i j,
   fun i j => if i < height ∧ j < width - offset_x
      then a * i1 i j + b * r2 i (j + offset_x) else i1 i j,
   fun i j => if i < height ∧ offset_x ≤ j ∧ j < width
      then a * r2 i j - b * i1 i (j - offset_x) else r2 i j,
   fun i j => if i < height ∧ offset_x ≤ j ∧ j < width
      then a * i2 i j + b * r1 i (j - offset_x) else i2 i j)

/-- The eight quadrant planes of one field generation: real and imaginary part
for each of the four (row parity, column parity) quadrants. -/
@[ext]
structure QState where
  r00 : Plane
  i00 : Plane
  r01 : Plane
  i01 : Plane
  r10 : Plane
  i10 : Plane
  r11 : Plane
  i11 : Plane

/-- The four parity quadrants. -/
inductive QuadId
  | q00
  | q01
  | q10
  | q11
  deriving DecidableEq

/-- The four elementary pass kinds of the full step. -/
inductive ShiftKind
  | shifty0
  | shifty1
  | shiftx0
  | shiftx1
  deriving DecidableEq

/-- A descriptor of one elementary pass application: the pass kind and the two
quadrants passed as the `(r1, i1)` and `(r2, i2)` plane pairs. -/
structure PassCall where
  kind : ShiftKind
  plane1 : QuadId
  plane2 : QuadId
  deriving DecidableEq

/-- Select the real (im = false) or imaginary (im = true) plane of a quadrant. -/
def qsel (q : QuadId) (im : Bool) (s : QState) : Plane :=
  match q, im with
  | .q00, false => s.r00
  | .q00, true => s.i00
  | .q01, false => s.r01
  | .q01, true => s.i01
  | .q10, false => s.r10
  | .q10, true => s.i10
  | .q11, false => s.r11
  | .q11, true => s.i11

/-- Replace the real and imaginary planes of one quadrant. -/
def setQuad (q : QuadId) (r i : Plane) (s : QState) : QState :=
  match q with
  | .q00 => { s with r00 := r, i00 := i }
  | .q01 => { s with r01 := r, i01 := i }
  | .q10 => { s with r10 := r, i10 := i }
  | .q11 => { s with r11 := r, i11 := i }

/-- Apply one described pass to a quadrant state. -/
def applyPassCall (width height : ℕ) (a b : ℚ) (c : PassCall) (s : QState) :
    QState :=
  let f := match c.kind with
    | .shifty0 => update_shifty_sse 0 width height a b
    | .shifty1 => update_shifty_sse 1 width height a b
    | .shiftx0 => update_shiftx_sse 0 width height a b
    | .shiftx1 => update_shiftx_sse 1 width height a b
  let t := f (qsel c.plane1 false s) (qsel c.plane1 true s)
    (qsel c.plane2 false s) (qsel c.plane2 true s)
  setQuad c.plane2 t.2.2.1 t.2.2.2 (setQuad c.plane1 t.1 t.2.1 s)

/-- The sixteen elementary pass applications of `full_step_sse`, in source
order. -/
def fullStepCalls : List PassCall :=
  [⟨.shifty0, .q00, .q10⟩, ⟨.shifty1, .q11, .q01⟩,
   ⟨.shiftx0, .q00, .q01⟩, ⟨.shiftx1, .q11, .q10⟩,
   ⟨.shifty0, .q01, .q11⟩, ⟨.shifty1, .q10, .q00⟩,
   ⟨.shiftx0, .q10, .q11⟩, ⟨.shiftx1, .q01, .q00⟩,
   ⟨.shiftx0, .q10, .q11⟩, ⟨.shiftx1, .q01, .q00⟩,
   ⟨.shifty0, .q01, .q11⟩, ⟨.shifty1, .q10, .q00⟩,
   ⟨.shiftx0, .q00, .q01⟩, ⟨.shiftx1, .q11, .q10⟩,
   ⟨.shifty0, .q00, .q10⟩, ⟨.shifty1, .q11, .q01⟩]

/-- The full-step pass sequence, translated call by call from
`full_step_sse` (`cpublocksse.cpp:115`).  The `stride` parameter of the C
function is a flat-memory artifact and has no counterpart in the 2D view.
Each line applies one `update_shifty_sse` / `update_shiftx_sse` call of the
source, written through the `PassCall` descriptor naming the pass kind and
the two quadrant plane pairs passed; the numbered comments reproduce the
grouping comments of the source. -/
def full_step_sse (width height : ℕ) (a b : ℚ) (s : QState) : QState :=
  -- 1
  let s := applyPassCall width height a b ⟨.shifty0, .q00, .q10⟩ s
  let s := applyPassCall width height a b ⟨.shifty1, .q11, .q01⟩ s
  -- 2
  let s := applyPassCall width height a b ⟨.shiftx0, .q00, .q01⟩ s
  let s := applyPassCall width height a b ⟨.shiftx1, .q11, .q10⟩ s
  -- 3
  let s := applyPassCall width height a b ⟨.shifty0, .q01, .q11⟩ s
  let s := applyPassCall width height a b ⟨.shifty1, .q10, .q00⟩ s
  -- 4
  let s := applyPassCall width height a b ⟨.shiftx0, .q10, .q11⟩ s
  let s := applyPassCall width height a b ⟨.shiftx1, .q01, .q00⟩ s
  -- 4
  let s := applyPassCall width height a b ⟨.shiftx0, .q10, .q11⟩ s
  let s := applyPassCall width height a b ⟨.shiftx1, .q01, .q00⟩ s
  -- 3
  let s := applyPassCall width height a b ⟨.shifty0, .q01, .q11⟩ s
  let s := applyPassCall width height a b ⟨.shifty1, .q10, .q00⟩ s
  -- 2
  let s := applyPassCall width height a b ⟨.shiftx0, .q00, .q01⟩ s
  let s := applyPassCall width height a b ⟨.shiftx1, .q11, .q10⟩ s
  -- 1
  let s := applyPassCall width height a b ⟨.shifty0, .q00, .q10⟩ s
  let s := applyPassCall width height a b ⟨.shifty1, .q11, .q01⟩ s
  s

/-- The full step is exactly the left fold of its sixteen described passes. -/
theorem full_step_sse_eq_foldl (width height : ℕ) (a b : ℚ) (s : QState) :
    full_step_sse width height a b s
      = fullStepCalls.foldl (fun st c => applyPassCall width height a b c st) s :=
  rfl

/-- The two-call groups of the full step, as delimited by the numbered
comments of the source (groups 1 2 3 4 4 3 2 1). -/
def fullStepGroups : List (PassCall × PassCall) :=
  [(⟨.shifty0, .q00, .q10⟩, ⟨.shifty1, .q11, .q01⟩),
   (⟨.shiftx0, .q00, .q01⟩, ⟨.shiftx1, .q11, .q10⟩),
   (⟨.shifty0, .q01, .q11⟩, ⟨.shifty1, .q10, .q00⟩),
   (⟨.shiftx0, .q10, .q11⟩, ⟨.shiftx1, .q01, .q00⟩),
   (⟨.shiftx0, .q10, .q11⟩, ⟨.shiftx1, .q01, .q00⟩),
   (⟨.shifty0, .q01, .q11⟩, ⟨.shifty1, .q10, .q00⟩),
   (⟨.shiftx0, .q00, .q01⟩, ⟨.shiftx1, .q11, .q10⟩),
   (⟨.shifty0, .q00, .q10⟩, ⟨.shifty1, .q11, .q01⟩)]

/-- C2 (counterexample): the sequence of the sixteen elementary pass
applications of `full_step_sse` is not literally palindromic: read call by
call, the sequence forwards differs from the sequence backwards (the mirrored
half repeats each two-call group in forward intra-group order). -/
theorem full_step_calls_not_palindromic :
    fullStepCalls.reverse ≠ fullStepCalls := by
  decide

/-- C2 (amended): the full step is the fold of its sixteen described passes;
grouped into the eight two-call groups delimited in the source, the group
sequence is palindromic, and the two middle groups are identical
horizontal-shift groups.  Within each group the two calls keep their forward
order in the mirrored half, so the call-by-call sequence itself is not
reversed. -/
theorem full_step_group_palindrome :
    (∀ (width height : ℕ) (a b : ℚ) (s : QState),
      full_step_sse width height a b s
        = fullStepCalls.foldl (fun st c => applyPassCall width height a b c st) s)
    ∧ fullStepCalls = (fullStepGroups.map (fun g => [g.1, g.2])).flatten
    ∧ fullStepGroups.reverse = fullStepGroups
    ∧ fullStepGroups.get? 3 = fullStepGroups.get? 4
    ∧ fullStepGroups.get? 3
        = some (⟨.shiftx0, .q10, .q11⟩, ⟨.shiftx1, .q01, .q00⟩) := by
  refine ⟨full_step_sse_eq_foldl, ?_, ?_, ?_, ?_⟩ <;> decide

/-- C3: each vertical (resp. horizontal) shift pass rotates every paired pair
of sites simultaneously from the old values with the four-term formulas
`r1' = a*r1 - b*i2`, `i1' = a*i1 + b*r2`, `r2' = a*r2 - b*i1`,
`i2' = a*i2 + b*r1`, and leaves every unpaired edge site untouched. -/
theorem rotation_passes_pairwise (offset_y offset_x width height : ℕ)
    (a b : ℚ) (r1 i1 r2 i2 : Plane) (i j : ℕ) :
    ((i < height - offset_y ∧ j < width) →
      ((update_shifty_sse offset_y width height a b r1 i1 r2 i2).1 i j
          = a * r1 i j - b * i2 (i + offset_y) j
        ∧ (update_shifty_sse offset_y width height a b r1 i1 r2 i2).2.1 i j
          = a * i1 i j + b * r2 (i + offset_y) j
        ∧ (update_shifty_sse offset_y width height a b r1 i1 r2 i2).2.2.1 (i + offset_y) j
          = a * r2 (i + offset_y) j - b * i1 i j
        ∧ (update_shifty_sse offset_y width height a b r1 i1 r2 i2).2.2.2 (i + offset_y) j
          = a * i2 (i + offset_y) j + b * r1 i j))
    ∧ (¬(i < height - offset_y ∧ j < width) →
        ((update_shifty_sse offset_y width height a b r1 i1 r2 i2).1 i j = r1 i j
          ∧ (update_shifty_sse offset_y width height a b r1 i1 r2 i2).2.1 i j = i1 i j))
    ∧ (¬(offset_y ≤ i ∧ i < height ∧ j < width) →
        ((update_shifty_sse offset_y width height a b r1 i1 r2 i2).2.2.1 i j = r2 i j
          ∧ (update_shifty_sse offset_y width height a b r1 i1 r2 i2).2.2.2 i j = i2 i j))
    ∧ ((i < height ∧ j < width - offset_x) →
      ((update_shiftx_sse offset_x width height a b r1 i1 r2 i2).1 i j
          = a * r1 i j - b * i2 i (j + offset_x)
        ∧ (update_shiftx_sse offset_x width height a b r1 i1 r2 i2).2.1 i j
          = a * i1 i j + b * r2 i (j + offset_x)
        ∧ (update_shiftx_sse offset_x width height a b r1 i1 r2 i2).2.2.1 i (j + offset_x)
          = a * r2 i (j + offset_x) - b * i1 i j
        ∧ (update_shiftx_sse offset_x width height a b r1 i1 r2 i2).2.2.2 i (j + offset_x)
          = a * i2 i (j + offset_x) + b * r1 i j))
    ∧ (¬(i < height ∧ j < width - offset_x) →
        ((update_shiftx_sse offset_x width height a b r1 i1 r2 i2).1 i j = r1 i j
          ∧ (update_shiftx_sse offset_x width height a b r1 i1 r2 i2).2.1 i j = i1 i j))
    ∧ (¬(i < height ∧ offset_x ≤ j ∧ j < width) →
        ((update_shiftx_sse offset_x width height a b r1 i1 r2 i2).2.2.1 i j = r2 i j
          ∧ (update_shiftx_sse offset_x width height a b r1 i1 r2 i2).2.2.2 i j = i2 i j)) := by
  refine ⟨fun h => ?_, fun h => ?_, fun h => ?_, fun h => ?_, fun h => ?_, fun h => ?_⟩
  · refine ⟨?_, ?_, ?_, ?_⟩
    · simp only [update_shifty_sse]
      rw [if_pos (by omega)]
    · simp only [update_shifty_sse]
      rw [if_pos (by omega)]
    · simp only [update_shifty_sse]
      rw [if_pos (by omega)]
      simp [Nat.add_sub_cancel]
    · simp only [update_shifty_sse]
      rw [if_pos (by omega)]
      simp [Nat.add_sub_cancel]
  · constructor <;>
      · simp only [update_shifty_sse]
        rw [if_neg h]
  · constructor <;>
      · simp only [update_shifty_sse]
        rw [if_neg h]
  · refine ⟨?_, ?_, ?_, ?_⟩
    · simp only [update_shiftx_sse]
      rw [if_pos (by omega)]
    · simp only [update_shiftx_sse]
      rw [if_pos (by omega)]
    · simp only [update_shiftx_sse]
      rw [if_pos (by omega)]
      simp [Nat.add_sub_cancel]
    · simp only [update_shiftx_sse]
      rw [if_pos (by omega)]
      simp [Nat.add_sub_cancel]
  · constructor <;>
      · simp only [update_shiftx_sse]
        rw [if_neg h]
  · constructor <;>
      · simp only [update_shiftx_sse]
        rw [if_neg h]

/-- A concrete plane used by witness instantiations. -/
def testPlane1 : Plane := fun i j => (i : ℚ) + j

/-- A concrete plane used by witness instantiations. -/
def testPlane2 : Plane := fun i j => (i : ℚ) * j

/-- A concrete plane used by witness instantiations. -/
def testPlane3 : Plane := fun i j => (i : ℚ) - j

/-- A concrete plane used by witness instantiations. -/
def testPlane4 : Plane := fun i j => (i : ℚ) + 2 * j

/-- C3 (witness): the pair formulas at a concrete pass instance. -/
theorem rotation_passes_pairwise_witness :
    ((1 : ℕ) < 4 - 1 ∧ (2 : ℕ) < 4)
    ∧ ((update_shifty_sse 1 4 4 2 3 testPlane1 testPlane2 testPlane3 testPlane4).1 1 2
        = 2 * testPlane1 1 2 - 3 * testPlane4 (1 + 1) 2
      ∧ (update_shifty_sse 1 4 4 2 3 testPlane1 testPlane2 testPlane3 testPlane4).2.1 1 2
        = 2 * testPlane2 1 2 + 3 * testPlane3 (1 + 1) 2
      ∧ (update_shifty_sse 1 4 4 2 3 testPlane1 testPlane2 testPlane3 testPlane4).2.2.1 (1 + 1) 2
        = 2 * testPlane3 (1 + 1) 2 - 3 * testPlane2 1 2
      ∧ (update_shifty_sse 1 4 4 2 3 testPlane1 testPlane2 testPlane3 testPlane4).2.2.2 (1 + 1) 2
        = 2 * testPlane4 (1 + 1) 2 + 3 * testPlane1 1 2) :=
  ⟨by decide,
   (rotation_passes_pairwise 1 0 4 4 2 3 testPlane1 testPlane2 testPlane3 testPlane4
      1 2).1 (by decide)⟩

/-- C8: an elementary rotation pass with coefficients `(a, b)` followed by the
same pass with coefficients `(a, -b)` restores the original planes exactly,
for any coefficients with `a² + b² = 1`. -/
theorem rotation_pass_inverse (offset_y offset_x width height : ℕ) (a b : ℚ)
    (hab : a ^ 2 + b ^ 2 = 1) (r1 i1 r2 i2 : Plane) :
    (update_shifty_sse offset_y width height a (-b)
        (update_shifty_sse offset_y width height a b r1 i1 r2 i2).1
        (update_shifty_sse offset_y width height a b r1 i1 r2 i2).2.1
        (update_shifty_sse offset_y width height a b r1 i1 r2 i2).2.2.1
        (update_shifty_sse offset_y width height a b r1 i1 r2 i2).2.2.2
      = (r1, i1, r2, i2))
    ∧ (update_shiftx_sse offset_x width height a (-b)
        (update_shiftx_sse offset_x width height a b r1 i1 r2 i2).1
        (update_shiftx_sse offset_x width height a b r1 i1 r2 i2).2.1
        (update_shiftx_sse offset_x width height a b r1 i1 r2 i2).2.2.1
        (update_shiftx_sse offset_x width height a b r1 i1 r2 i2).2.2.2
      = (r1, i1, r2, i2)) := by
  constructor
  · have e1 : (update_shifty_sse offset_y width height a (-b)
        (update_shifty_sse offset_y width height a b r1 i1 r2 i2).1
        (update_shifty_sse offset_y width height a b r1 i1 r2 i2).2.1
        (update_shifty_sse offset_y width height a b r1 i1 r2 i2).2.2.1
        (update_shifty_sse offset_y width height a b r1 i1 r2 i2).2.2.2).1 = r1 := by
      funext i j
      by_cases h : i < height - offset_y ∧ j < width
      · have h2 : offset_y ≤ i + offset_y ∧ i + offset_y < height ∧ j < width := by omega
        simp only [update_shifty_sse, if_pos h, if_pos h2, Nat.add_sub_cancel]
        linear_combination r1 i j * hab
      · simp only [update_shifty_sse, if_neg h]
    have e2 : (update_shifty_sse offset_y width height a (-b)
        (update_shifty_sse offset_y width height a b r1 i1 r2 i2).1
        (update_shifty_sse offset_y width height a b r1 i1 r2 i2).2.1
        (update_shifty_sse offset_y width height a b r1 i1 r2 i2).2.2.1
        (update_shifty_sse offset_y width height a b r1 i1 r2 i2).2.2.2).2.1 = i1 := by
      funext i j
      by_cases h : i < height - offset_y ∧ j < width
      · have h2 : offset_y ≤ i + offset_y ∧ i + offset_y < height ∧ j < width := by omega
        simp only [update_shifty_sse, if_pos h, if_pos h2, Nat.add_sub_cancel]
        linear_combination i1 i j * hab
      · simp only [update_shifty_sse, if_neg h]
    have e3 : (update_shifty_sse offset_y width height a (-b)
        (update_shifty_sse offset_y width height a b r1 i1 r2 i2).1
        (update_shifty_sse offset_y width height a b r1 i1 r2 i2).2.1
        (update_shifty_sse offset_y width height a b r1 i1 r2 i2).2.2.1
        (update_shifty_sse offset_y width height a b r1 i1 r2 i2).2.2.2).2.2.1 = r2 := by
      funext i j
      by_cases h : offset_y ≤ i ∧ i < height ∧ j < width
      · have h2 : i - offset_y < height - offset_y ∧ j < width := by omega
        have h3 : i - offset_y + offset_y = i := by omega
        simp only [update_shifty_sse, if_pos h, if_pos h2, h3]
        linear_combination r2 i j * hab
      · simp only [update_shifty_sse, if_neg h]
    have e4 : (update_shifty_sse offset_y width height a (-b)
        (update_shifty_sse offset_y width height a b r1 i1 r2 i2).1
        (update_shifty_sse offset_y width height a b r1 i1 r2 i2).2.1
        (update_shifty_sse offset_y width height a b r1 i1 r2 i2).2.2.1
        (update_shifty_sse offset_y width height a b r1 i1 r2 i2).2.2.2).2.2.2 = i2 := by
      funext i j
      by_cases h : offset_y ≤ i ∧ i < height ∧ j < width
      · have h2 : i - offset_y < height - offset_y ∧ j < width := by omega
        have h3 : i - offset_y + offset_y = i := by omega
        simp only [update_shifty_sse, if_pos h, if_pos h2, h3]
        linear_combination i2 i j * hab
      · simp only [update_shifty_sse, if_neg h]
    exact Prod.ext e1 (Prod.ext e2 (Prod.ext e3 e4))
  · have e1 : (update_shiftx_sse offset_x width height a (-b)
        (update_shiftx_sse offset_x width height a b r1 i1 r2 i2).1
        (update_shiftx_sse offset_x width height a b r1 i1 r2 i2).2.1
        (update_shiftx_sse offset_x width height a b r1 i1 r2 i2).2.2.1
        (update_shiftx_sse offset_x width height a b r1 i1 r2 i2).2.2.2).1 = r1 := by
      funext i j
      by_cases h : i < height ∧ j < width - offset_x
      · have h2 : i < height ∧ offset_x ≤ j + offset_x ∧ j + offset_x < width := by omega
        simp only [update_shiftx_sse, if_pos h, if_pos h2, Nat.add_sub_cancel]
        linear_combination r1 i j * hab
      · simp only [update_shiftx_sse, if_neg h]
    have e2 : (update_shiftx_sse offset_x width height a (-b)
        (update_shiftx_sse offset_x width height a b r1 i1 r2 i2).1
        (update_shiftx_sse offset_x width height a b r1 i1 r2 i2).2.1
        (update_shiftx_sse offset_x width height a b r1 i1 r2 i2).2.2.1
        (update_shiftx_sse offset_x width height a b r1 i1 r2 i2).2.2.2).2.1 = i1 := by
      funext i j
      by_cases h : i < height ∧ j < width - offset_x
      · have h2 : i < height ∧ offset_x ≤ j + offset_x ∧ j + offset_x < width := by omega
        simp only [update_shiftx_sse, if_pos h, if_pos h2, Nat.add_sub_cancel]
        linear_combination i1 i j * hab
      · simp only [update_shiftx_sse, if_neg h]
    have e3 : (update_shiftx_sse offset_x width height a (-b)
        (update_shiftx_sse offset_x width height a b r1 i1 r2 i2).1
        (update_shiftx_sse offset_x width height a b r1 i1 r2 i2).2.1
        (update_shiftx_sse offset_x width height a b r1 i1 r2 i2).2.2.1
        (update_shiftx_sse offset_x width height a b r1 i1 r2 i2).2.2.2).2.2.1 = r2 := by
      funext i j
      by_cases h : i < height ∧ offset_x ≤ j ∧ j < width
      · have h2 : i < height ∧ j - offset_x < width - offset_x := by omega
        have h3 : j - offset_x + offset_x = j := by omega
        simp only [update_shiftx_sse, if_pos h, if_pos h2, h3]
        linear_combination r2 i j * hab
      · simp only [update_shiftx_sse, if_neg h]
    have e4 : (update_shiftx_sse offset_x width height a (-b)
        (update_shiftx_sse offset_x width height a b r1 i1 r2 i2).1
        (update_shiftx_sse offset_x width height a b r1 i1 r2 i2).2.1
        (update_shiftx_sse offset_x width height a b r1 i1 r2 i2).2.2.1
        (update_shiftx_sse offset_x width height a b r1 i1 r2 i2).2.2.2).2.2.2 = i2 := by
      funext i j
      by_cases h : i < height ∧ offset_x ≤ j ∧ j < width
      · have h2 : i < height ∧ j - offset_x < width - offset_x := by omega
        have h3 : j - offset_x + offset_x = j := by omega
        simp only [update_shiftx_sse, if_pos h, if_pos h2, h3]
        linear_combination i2 i j * hab
      · simp only [update_shiftx_sse, if_neg h]
    exact Prod.ext e1 (Prod.ext e2 (Prod.ext e3 e4))

/-- C8 (witness): inverting a concrete pass with `a = 3/5`, `b = 4/5`. -/
theorem rotation_pass_inverse_witness :
    ((3 / 5 : ℚ) ^ 2 + (4 / 5 : ℚ) ^ 2 = 1)
    ∧ (update_shifty_sse 1 4 4 (3 / 5) (-(4 / 5))
        (update_shifty_sse 1 4 4 (3 / 5) (4 / 5) testPlane1 testPlane2 testPlane3 testPlane4).1
        (update_shifty_sse 1 4 4 (3 / 5) (4 / 5) testPlane1 testPlane2 testPlane3 testPlane4).2.1
        (update_shifty_sse 1 4 4 (3 / 5) (4 / 5) testPlane1 testPlane2 testPlane3 testPlane4).2.2.1
        (update_shifty_sse 1 4 4 (3 / 5) (4 / 5) testPlane1 testPlane2 testPlane3 testPlane4).2.2.2
      = (testPlane1, testPlane2, testPlane3, testPlane4)) :=
  ⟨by norm_num,
   (rotation_pass_inverse 1 0 4 4 (3 / 5) (4 / 5) (by norm_num)
      testPlane1 testPlane2 testPlane3 testPlane4).1⟩

/-! ### Block tiling and the kernel object -/

/-- Unsigned 64-bit subtraction, modelling the C `size_t` arithmetic
`x - y` (both operands converted to `size_t`). -/
def usub64 (x y : ℕ) : ℕ := (x % 2 ^ 64 + (2 ^ 64 - y % 2 ^ 64)) % 2 ^ 64

/-- The successive values taken by the loop variable of
`for (v = step; v < lim; v += step)`, in order, for `step > 0` (for
`step = 0` and `lim > 0` the C loop would not terminate; the list is empty
in that degenerate case). -/
def loop_starts (step lim : ℕ) : List ℕ :=
  (List.range ((lim - 1) / step)).map (fun n => step * (n + 1))

/-- The starting column of the remainder block of a band, translated from
`process_sides_sse` (`cpublocksse.cpp:179`):
`((tile_width-block_width)/(block_width - 2*halo_x)+1)*(block_width - 2*halo_x)`,
with both subtractions in `size_t`. -/
def last_block_start (block_width tile_width halo_x : ℕ) : ℕ :=
  (usub64 tile_width block_width / usub64 block_width (2 * halo_x) + 1)
    * usub64 block_width (2 * halo_x)

/-- The all-zero quadrant state.  It stands in for the uninitialised stack
block buffers of `process_band_sse`: every `full_step_sse` call reads only
rows below its `height` argument and columns below its `width` argument, and
those are always freshly copied before the call, so no initial block content
is ever observable. -/
def zeroQState : QState where
  r00 := fun _ _ => 0
  i00 := fun _ _ => 0
  r01 := fun _ _ => 0
  i01 := fun _ _ => 0
  r10 := fun _ _ => 0
  i10 := fun _ _ => 0
  r11 := fun _ _ => 0
  i11 := fun _ _ => 0

/-- Modelled from the spec: `memcpy2D` is declared in `common.h`, which is
not under src/.  The spec describes the block tiling as blocks "copied into a
scratch buffer, processed, and copied back"; this is that 2D strided copy.
It copies the `w × h` rectangle of `src` with top-left corner
`(src_row, src_col)` onto the rectangle of `dst` with top-left corner
`(dst_row, dst_col)`.  The C call sites pass pointers already offset into the
flat arrays together with byte strides and widths; those offsets appear here
as explicit corner coordinates and element counts. -/
def memcpy2D (dst src : Plane) (dst_row dst_col src_row src_col w h : ℕ) :
    Plane :=
  fun i j =>
    if dst_row ≤ i ∧ i < dst_row + h ∧ dst_col ≤ j ∧ j < dst_col + w
    then src (src_row + (i - dst_row)) (src_col + (j - dst_col))
    else dst i j

/-- The eight consecutive per-plane `memcpy2D` calls that the source issues
with identical geometry, one per quadrant plane. -/
def memcpy2D_all (dst src : QState) (dst_row dst_col src_row src_col w h : ℕ) :
    QState where
  r00 := memcpy2D dst.r00 src.r00 dst_row dst_col src_row src_col w h
  i00 := memcpy2D dst.i00 src.i00 dst_row dst_col src_row src_col w h
  r01 := memcpy2D dst.r01 src.r01 dst_row dst_col src_row src_col w h
  i01 := memcpy2D dst.i01 src.i01 dst_row dst_col src_row src_col w h
  r10 := memcpy2D dst.r10 src.r10 dst_row dst_col src_row src_col w h
  i10 := memcpy2D dst.i10 src.i10 dst_row dst_col src_row src_col w h
  r11 := memcpy2D dst.r11 src.r11 dst_row dst_col src_row src_col w h
  i11 := memcpy2D dst.i11 src.i11 dst_row dst_col src_row src_col w h

/-- The first and remainder (last) column blocks of one band, translated from
`process_sides_sse` (`cpublocksse.cpp:142`).  Widths and indices follow the
source expressions element for element (widths there are in bytes, divided
back to element counts here). -/
def process_sides_sse (read_y read_height write_offset write_height
    block_width block_height tile_width halo_x : ℕ) (a b : ℚ)
    (cur next : QState) : QState :=
  -- First block [0..block_width - halo_x]
  let blk := memcpy2D_all zeroQState cur 0 0 (read_y / 2) 0
    (block_width / 2) (read_height / 2)
  let blk := full_step_sse (block_width / 2) (read_height / 2) a b blk
  let next := memcpy2D_all next blk (read_y / 2 + write_offset / 2) 0
    (write_offset / 2) 0 ((block_width - halo_x) / 2) (write_height / 2)
  -- Last block
  let block_start := last_block_start block_width tile_width halo_x
  let blk := memcpy2D_all zeroQState cur 0 0 (read_y / 2) (block_start / 2)
    (tile_width / 2 - block_start / 2) (read_height / 2)
  let blk := full_step_sse (tile_width / 2 - block_start / 2) (read_height / 2)
    a b blk
  memcpy2D_all next blk (read_y / 2 + write_offset / 2)
    ((block_start + halo_x) / 2) (write_offset / 2) (halo_x / 2)
    (tile_width / 2 - block_start / 2 - halo_x / 2) (write_height / 2)

/-- One horizontal band of the tile, translated from `process_band_sse`
(`cpublocksse.cpp:206`): a single full block when the tile is no wider than a
block, otherwise the first/last side blocks (when `sides` is set) and the
regular middle blocks (when `inner` is set), whose loop bound
`tile_width - block_width` and stride `block_width - 2 * halo_x` the C
computes in `size_t`.  The unused `block_height` parameter sizes the C stack
buffers. -/
def process_band_sse (read_y read_height write_offset write_height
    block_width block_height tile_width halo_x : ℕ) (a b : ℚ)
    (cur next : QState) (inner sides : Bool) : QState :=
  if tile_width ≤ block_width then
    if sides then
      -- One full block
      let blk := memcpy2D_all zeroQState cur 0 0 (read_y / 2) 0
        (tile_width / 2) (read_height / 2)
      let blk := full_step_sse (tile_width / 2) (read_height / 2) a b blk
      memcpy2D_all next blk (read_y / 2 + write_offset / 2) 0
        (write_offset / 2) 0 (tile_width / 2) (write_height / 2)
    else next
  else
    let next := if sides then
      process_sides_sse read_y read_height write_offset write_height
        block_width block_height tile_width halo_x a b cur next
    else next
    if inner then
      -- Regular blocks in the middle
      (loop_starts (usub64 block_width (2 * halo_x))
          (usub64 tile_width block_width)).foldl
        (fun nx block_start =>
          let blk := memcpy2D_all zeroQState cur 0 0 (read_y / 2)
            (block_start / 2) (block_width / 2) (read_height / 2)
          let blk := full_step_sse (block_width / 2) (read_height / 2) a b blk
          memcpy2D_all nx blk (read_y / 2 + write_offset / 2)
            ((block_start + halo_x) / 2) (write_offset / 2) (halo_x / 2)
            ((block_width - 2 * halo_x) / 2) (write_height / 2))
        next
    else next

/-- `BLOCK_WIDTH` from `kernel.h:39` (`128u`). -/
def BLOCK_WIDTH : ℕ := 128

/-- `BLOCK_HEIGHT` from `kernel.h:40` (`128u`). -/
def BLOCK_HEIGHT : ℕ := 128

/-- The `CPUBlockSSEKernel` object: tile geometry, rotation coefficients, the
two generations of quadrant planes (`r00[2], ..., i11[2]` in the source,
gathered per generation), and the `sense` flag selecting the current
generation. -/
structure Kernel where
  tile_width : ℕ
  tile_height : ℕ
  halo_x : ℕ
  halo_y : ℕ
  a : ℚ
  b : ℚ
  gens : Fin 2 → QState
  sense : Fin 2

/-- The band starts of the `run_kernel` middle-band loop
(`cpublocksse.cpp:385`): `for (size_t block_start = block_height - 2*halo_y;
block_start < tile_height - block_height; block_start += block_height -
2*halo_y)`, with both subtractions in unsigned `size_t` arithmetic. -/
def band_loop_starts (tile_height halo_y : ℕ) : List ℕ :=
  loop_starts (usub64 BLOCK_HEIGHT (2 * halo_y)) (usub64 tile_height BLOCK_HEIGHT)

/-- `CPUBlockSSEKernel::run_kernel` (`cpublocksse.cpp:383`): process the
middle bands with `inner=1, sides=0`, reading the `sense` generation and
writing the `1-sense` generation, then flip `sense`. -/
def run_kernel (k : Kernel) : Kernel :=
  let cur := k.gens k.sense
  let nxt := (band_loop_starts k.tile_height k.halo_y).foldl
    (fun nx block_start =>
      process_band_sse block_start BLOCK_HEIGHT k.halo_y
        (BLOCK_HEIGHT - 2 * k.halo_y) BLOCK_WIDTH BLOCK_HEIGHT k.tile_width
        k.halo_x k.a k.b cur nx true false)
    (k.gens (1 - k.sense))
  { k with gens := Function.update k.gens (1 - k.sense) nxt,
           sense := 1 - k.sense }

/-- `CPUBlockSSEKernel::run_kernel_on_halo` (`cpublocksse.cpp:357`): the whole
tile as one full band when `tile_height <= BLOCK_HEIGHT`; otherwise the sides
of the middle bands, then the first band, then the last band (whose start is
the final value of the loop variable of the sides loop).  No `sense` flip. -/
def run_kernel_on_halo (k : Kernel) : Kernel :=
  let cur := k.gens k.sense
  let nxt :=
    if k.tile_height ≤ BLOCK_HEIGHT then
      -- One full band
      process_band_sse 0 k.tile_height 0 k.tile_height BLOCK_WIDTH BLOCK_HEIGHT
        k.tile_width k.halo_x k.a k.b cur (k.gens (1 - k.sense)) true true
    else
      -- Sides
      let nx := (band_loop_starts k.tile_height k.halo_y).foldl
        (fun nx block_start =>
          process_band_sse block_start BLOCK_HEIGHT k.halo_y
            (BLOCK_HEIGHT - 2 * k.halo_y) BLOCK_WIDTH BLOCK_HEIGHT k.tile_width
            k.halo_x k.a k.b cur nx false true)
        (k.gens (1 - k.sense))
      -- First band
      let nx := process_band_sse 0 BLOCK_HEIGHT 0 (BLOCK_HEIGHT - k.halo_y)
        BLOCK_WIDTH BLOCK_HEIGHT k.tile_width k.halo_x k.a k.b cur nx true true
      -- Last band
      let block_start := usub64 BLOCK_HEIGHT (2 * k.halo_y)
        * ((usub64 k.tile_height BLOCK_HEIGHT - 1)
            / usub64 BLOCK_HEIGHT (2 * k.halo_y) + 1)
      process_band_sse block_start (k.tile_height - block_start) k.halo_y
        (k.tile_height - block_start - k.halo_y) BLOCK_WIDTH BLOCK_HEIGHT
        k.tile_width k.halo_x k.a k.b cur nx true true
  { k with gens := Function.update k.gens (1 - k.sense) nxt }

/-- `CPUBlockSSEKernel::wait_for_completion` (`cpublocksse.cpp:392`): the body
is empty. -/
def wait_for_completion (k : Kernel) : Kernel := k

/-- The quadrant packing performed by the `CPUBlockSSEKernel` constructor
(`cpublocksse.cpp:320`): quadrant `(di, dj)` at `(i, j)` holds the flat
row-major input entry `p[(2i + di) * tile_width + (2j + dj)]`. -/
def pack_quadrant (p : ℕ → ℚ) (tile_width : ℕ) (q : QuadId) : Plane :=
  fun i j =>
    match q with
    | .q00 => p (2 * i * tile_width + 2 * j)
    | .q01 => p (2 * i * tile_width + 2 * j + 1)
    | .q10 => p ((2 * i + 1) * tile_width + 2 * j)
    | .q11 => p ((2 * i + 1) * tile_width + 2 * j + 1)

/-- The `CPUBlockSSEKernel` constructor (`cpublocksse.cpp:290`): store the
geometry and coefficients, set `sense = 0`, and pack the flat input field
into the quadrant planes of generation 0.  Generation 1 is allocated but not
initialised in the source; it is modelled as zero. -/
def CPUBlockSSEKernel (p_real p_imag : ℕ → ℚ) (a b : ℚ)
    (tile_width tile_height halo_x halo_y : ℕ) : Kernel where
  tile_width := tile_width
  tile_height := tile_height
  halo_x := halo_x
  halo_y := halo_y
  a := a
  b := b
  gens := fun g =>
    if g = 0 then
      { r00 := pack_quadrant p_real tile_width .q00
        i00 := pack_quadrant p_imag tile_width .q00
        r01 := pack_quadrant p_real tile_width .q01
        i01 := pack_quadrant p_imag tile_width .q01
        r10 := pack_quadrant p_real tile_width .q10
        i10 := pack_quadrant p_imag tile_width .q10
        r11 := pack_quadrant p_real tile_width .q11
        i11 := pack_quadrant p_imag tile_width .q11 }
    else zeroQState
  sense := 0

/-- Modelled from the spec: `get_quadrant_sample` lives in `common.cpp`, which
is not under src/.  Per the spec, `get_sample` "copies a rectangular window of
the current buffer (de-interleaving the quadrant layout back into a flat
row-major array)", the de-interleaving inverse being
`p[2i+di][2j+dj] = quadrant[di][dj][i][j]`.  The destination is viewed as the
window itself: entry `(i, j)` of the result is the sampled site
`(y + i, x + j)` of the tile. -/
def get_quadrant_sample (q00 q01 q10 q11 : Plane) (x y : ℕ) : Plane :=
  fun i j =>
    if (y + i) % 2 = 0 then
      if (x + j) % 2 = 0 then q00 ((y + i) / 2) ((x + j) / 2)
      else q01 ((y + i) / 2) ((x + j) / 2)
    else
      if (x + j) % 2 = 0 then q10 ((y + i) / 2) ((x + j) / 2)
      else q11 ((y + i) / 2) ((x + j) / 2)

/-- `CPUBlockSSEKernel::get_sample` (`cpublocksse.cpp:396`): sample the
`sense` (current) generation planes, real and imaginary. -/
def get_sample (k : Kernel) (x y : ℕ) : Plane × Plane :=
  (get_quadrant_sample (k.gens k.sense).r00 (k.gens k.sense).r01
    (k.gens k.sense).r10 (k.gens k.sense).r11 x y,
   get_quadrant_sample (k.gens k.sense).i00 (k.gens k.sense).i01
    (k.gens k.sense).i10 (k.gens k.sense).i11 x y)

/-- Modelled from the spec: the total probability held by the kernel — the
sum of squared amplitudes of the current generation over the tile.  The SSE
kernel itself computes no norm; this observable only states the
renormalization claim. -/
def squared_norm (k : Kernel) : ℚ :=
  ∑ i ∈ Finset.range (k.tile_height / 2), ∑ j ∈ Finset.range (k.tile_width / 2),
    (((k.gens k.sense).r00 i j) ^ 2 + ((k.gens k.sense).i00 i j) ^ 2
      + ((k.gens k.sense).r01 i j) ^ 2 + ((k.gens k.sense).i01 i j) ^ 2
      + ((k.gens k.sense).r10 i j) ^ 2 + ((k.gens k.sense).i10 i j) ^ 2
      + ((k.gens k.sense).r11 i j) ^ 2 + ((k.gens k.sense).i11 i j) ^ 2)


/-! ### Halo exchange event traces -/

/-- The four MPI neighbors (`UP/DOWN/LEFT/RIGHT` from `kernel.h:34`). -/
inductive Neighbor
  | up
  | down
  | left
  | right
  deriving DecidableEq

/-- The two border datatypes committed by `initialize_MPI`
(`cpublocksse.cpp:416` and `cpublocksse.cpp:422`). -/
inductive BorderKind
  | vertical
  | horizontal
  deriving DecidableEq

/-- The eight scalar quadrant planes, in the order the exchange code posts
them (tags 0..7 per direction). -/
inductive BufferId
  | r00
  | r01
  | r10
  | r11
  | i00
  | i01
  | i10
  | i11
  deriving DecidableEq

/-- One MPI call issued by the halo exchange: a non-blocking receive, a
non-blocking send, or the collective `MPI_Waitall` on the 32 outstanding
requests. -/
inductive HaloOp
  | irecv (peer : Neighbor) (buf : BufferId) (border : BorderKind) (tag : ℕ)
  | isend (peer : Neighbor) (buf : BufferId) (border : BorderKind) (tag : ℕ)
  | waitall
  deriving DecidableEq

/-- Whether an operation blocks (only `MPI_Waitall` does; `MPI_Irecv` and
`MPI_Isend` return immediately). -/
def HaloOp.isWaitall : HaloOp → Bool
  | .waitall => true
  | _ => false

/-- The border datatype of a transfer operation. -/
def HaloOp.borderOf : HaloOp → Option BorderKind
  | .irecv _ _ border _ => some border
  | .isend _ _ border _ => some border
  | .waitall => none

/-- Whether the operation is a receive posted against the given neighbor. -/
def HaloOp.isRecvFrom (op : HaloOp) (n : Neighbor) : Bool :=
  match op with
  | .irecv peer _ _ _ => peer = n
  | _ => false

/-- Whether the operation is a send posted towards the given neighbor. -/
def HaloOp.isSendTo (op : HaloOp) (n : Neighbor) : Bool :=
  match op with
  | .isend peer _ _ _ => peer = n
  | _ => false

/-- The MPI calls of `CPUBlockSSEKernel::start_halo_exchange`
(`cpublocksse.cpp:427`), in source order: 8 receives from LEFT (tags 0-7),
8 receives from RIGHT (tags 8-15), 8 sends to RIGHT (tags 0-7), 8 sends to
LEFT (tags 8-15), all with the `verticalBorder` datatype, and no wait. -/
def start_halo_exchange_ops : List HaloOp :=
  [.irecv .left .r00 .vertical 0, .irecv .left .r01 .vertical 1,
   .irecv .left .r10 .vertical 2, .irecv .left .r11 .vertical 3,
   .irecv .left .i00 .vertical 4, .irecv .left .i01 .vertical 5,
   .irecv .left .i10 .vertical 6, .irecv .left .i11 .vertical 7,
   .irecv .right .r00 .vertical 8, .irecv .right .r01 .vertical 9,
   .irecv .right .r10 .vertical 10, .irecv .right .r11 .vertical 11,
   .irecv .right .i00 .vertical 12, .irecv .right .i01 .vertical 13,
   .irecv .right .i10 .vertical 14, .irecv .right .i11 .vertical 15,
   .isend .right .r00 .vertical 0, .isend .right .r01 .vertical 1,
   .isend .right .r10 .vertical 2, .isend .right .r11 .vertical 3,
   .isend .right .i00 .vertical 4, .isend .right .i01 .vertical 5,
   .isend .right .i10 .vertical 6, .isend .right .i11 .vertical 7,
   .isend .left .r00 .vertical 8, .isend .left .r01 .vertical 9,
   .isend .left .r10 .vertical 10, .isend .left .r11 .vertical 11,
   .isend .left .i00 .vertical 12, .isend .left .i01 .vertical 13,
   .isend .left .i10 .vertical 14, .isend .left .i11 .vertical 15]

/-- The MPI calls of `CPUBlockSSEKernel::finish_halo_exchange`
(`cpublocksse.cpp:468`), in source order: `MPI_Waitall(32, req, statuses)` on
the 32 requests posted by `start_halo_exchange`, then 8 receives from UP,
8 receives from DOWN, 8 sends to DOWN, 8 sends to UP, all with the
`horizontalBorder` datatype, then `MPI_Waitall(32, req, statuses)` again. -/
def finish_halo_exchange_ops : List HaloOp :=
  [.waitall,
   .irecv .up .r00 .horizontal 0, .irecv .up .r01 .horizontal 1,
   .irecv .up .r10 .horizontal 2, .irecv .up .r11 .horizontal 3,
   .irecv .up .i00 .horizontal 4, .irecv .up .i01 .horizontal 5,
   .irecv .up .i10 .horizontal 6, .irecv .up .i11 .horizontal 7,
   .irecv .down .r00 .horizontal 8, .irecv .down .r01 .horizontal 9,
   .irecv .down .r10 .horizontal 10, .irecv .down .r11 .horizontal 11,
   .irecv .down .i00 .horizontal 12, .irecv .down .i01 .horizontal 13,
   .irecv .down .i10 .horizontal 14, .irecv .down .i11 .horizontal 15,
   .isend .down .r00 .horizontal 0, .isend .down .r01 .horizontal 1,
   .isend .down .r10 .horizontal 2, .isend .down .r11 .horizontal 3,
   .isend .down .i00 .horizontal 4, .isend .down .i01 .horizontal 5,
   .isend .down .i10 .horizontal 6, .isend .down .i11 .horizontal 7,
   .isend .up .r00 .horizontal 8, .isend .up .r01 .horizontal 9,
   .isend .up .r10 .horizontal 10, .isend .up .r11 .horizontal 11,
   .isend .up .i00 .horizontal 12, .isend .up .i01 .horizontal 13,
   .isend .up .i10 .horizontal 14, .isend .up .i11 .horizontal 15,
   .waitall]

/-- C5: the halo exchange is two-phase with the mandated ordering.
`start_halo_exchange` issues only non-blocking vertical (left/right)
operations, 8 scalar planes per direction for both sends and receives, and
contains no blocking wait.  `finish_halo_exchange` begins with the collective
wait on the 32 vertical-phase requests; every transfer it issues is
horizontal (top/bottom) and sits strictly between that initial wait and the
final collective wait, so no horizontal transfer is issued before the
vertical phase has fully resolved. -/
theorem halo_exchange_two_phase :
    (∀ op ∈ start_halo_exchange_ops,
      op.isWaitall = false ∧ op.borderOf = some .vertical)
    ∧ start_halo_exchange_ops.length = 32
    ∧ (start_halo_exchange_ops.filter (fun op => op.isRecvFrom .left)).length = 8
    ∧ (start_halo_exchange_ops.filter (fun op => op.isRecvFrom .right)).length = 8
    ∧ (start_halo_exchange_ops.filter (fun op => op.isSendTo .right)).length = 8
    ∧ (start_halo_exchange_ops.filter (fun op => op.isSendTo .left)).length = 8
    ∧ finish_halo_exchange_ops.head? = some .waitall
    ∧ finish_halo_exchange_ops.getLast? = some .waitall
    ∧ (∀ i : Fin finish_halo_exchange_ops.length,
        (finish_halo_exchange_ops.get i).isWaitall = false →
          (finish_halo_exchange_ops.get i).borderOf = some .horizontal
            ∧ 0 < i.val ∧ i.val + 1 < finish_halo_exchange_ops.length) := by
  refine ⟨?_, ?_, ?_, ?_, ?_, ?_, ?_, ?_, ?_⟩ <;> decide

/-! ### wait_for_completion (C4), frame discipline (C9), small tiles (C10) -/

/-- C4 (amended): `wait_for_completion` changes no kernel state at all — it
performs no renormalization in this kernel (which has no imaginary-time
mode); its body is empty. -/
theorem wait_for_completion_id (k : Kernel) : wait_for_completion k = k := rfl

/-- A quadrant state with all real parts 1 and all imaginary parts 0. -/
def onesQState : QState where
  r00 := fun _ _ => 1
  i00 := fun _ _ => 0
  r01 := fun _ _ => 1
  i01 := fun _ _ => 0
  r10 := fun _ _ => 1
  i10 := fun _ _ => 0
  r11 := fun _ _ => 1
  i11 := fun _ _ => 0

/-- A concrete kernel over a 2×2 tile whose four amplitudes are all 1, so its
total probability is 4, not 1. -/
def unnormalizedKernel : Kernel where
  tile_width := 2
  tile_height := 2
  halo_x := 0
  halo_y := 0
  a := 1
  b := 0
  gens := fun _ => onesQState
  sense := 0

/-- C4 (counterexample): after `wait_for_completion` the state is untouched
and its total probability is still 4 — no division by the global norm has
happened, contradicting the imaginary-time renormalization half of the
claim. -/
theorem wait_for_completion_not_renormalized :
    wait_for_completion unnormalizedKernel = unnormalizedKernel
      ∧ squared_norm (wait_for_completion unnormalizedKernel) = 4
      ∧ squared_norm (wait_for_completion unnormalizedKernel) ≠ 1 := by
  refine ⟨rfl, ?_, ?_⟩
  · show squared_norm unnormalizedKernel = 4
    norm_num [squared_norm, unnormalizedKernel, onesQState]
  · show squared_norm unnormalizedKernel ≠ 1
    norm_num [squared_norm, unnormalizedKernel, onesQState]

/-- C9: neither `run_kernel` nor `run_kernel_on_halo` modifies any plane of
the generation that is current at entry: all writes land in the other
generation, and the only further state change is the `sense` toggle performed
at the end of `run_kernel`. -/
theorem kernels_preserve_current_generation (k : Kernel) :
    (run_kernel k).gens k.sense = k.gens k.sense
    ∧ (run_kernel_on_halo k).gens k.sense = k.gens k.sense
    ∧ (run_kernel_on_halo k).sense = k.sense
    ∧ (run_kernel k).sense = 1 - k.sense
    ∧ (run_kernel (run_kernel_on_halo k)).gens k.sense = k.gens k.sense := by
  have hne : ∀ s : Fin 2, s ≠ 1 - s := by decide
  have h1 : ∀ k' : Kernel, (run_kernel k').gens k'.sense = k'.gens k'.sense := by
    intro k'
    show Function.update k'.gens (1 - k'.sense) _ k'.sense = k'.gens k'.sense
    exact Function.update_noteq (hne k'.sense) _ k'.gens
  have h2 : (run_kernel_on_halo k).gens k.sense = k.gens k.sense := by
    show Function.update k.gens (1 - k.sense) _ k.sense = k.gens k.sense
    exact Function.update_noteq (hne k.sense) _ k.gens
  have h3 : (run_kernel_on_halo k).sense = k.sense := rfl
  refine ⟨h1 k, h2, h3, rfl, ?_⟩
  calc (run_kernel (run_kernel_on_halo k)).gens k.sense
      = (run_kernel (run_kernel_on_halo k)).gens (run_kernel_on_halo k).sense := by
        rw [h3]
    _ = (run_kernel_on_halo k).gens (run_kernel_on_halo k).sense :=
        h1 (run_kernel_on_halo k)
    _ = k.gens k.sense := by rw [h3]; exact h2

/-- `usub64` agrees with truncated subtraction when no wrap occurs. -/
theorem usub64_of_le {x y : ℕ} (hyx : y ≤ x) (hx : x < 2 ^ 64) :
    usub64 x y = x - y := by
  unfold usub64
  rw [Nat.mod_eq_of_lt hx, Nat.mod_eq_of_lt (lt_of_le_of_lt hyx hx)]
  have h : x + (2 ^ 64 - y) = (x - y) + 2 ^ 64 := by omega
  rw [h, Nat.add_mod_right, Nat.mod_eq_of_lt (by omega)]

/-- `usub64` wraps around when the subtrahend is larger. -/
theorem usub64_of_lt {x y : ℕ} (hxy : x < y) (hy : y < 2 ^ 64) :
    usub64 x y = 2 ^ 64 - (y - x) := by
  unfold usub64
  rw [Nat.mod_eq_of_lt (lt_trans hxy hy), Nat.mod_eq_of_lt hy]
  have h : x + (2 ^ 64 - y) = 2 ^ 64 - (y - x) := by omega
  rw [h]
  exact Nat.mod_eq_of_lt (by omega)

/-- C10 (counterexample): for `tile_height = 64` (≤ 128) and `halo_y = 8`,
the `run_kernel` band loop does execute: its bound
`tile_height - block_height` wraps around in unsigned arithmetic, so the
start list is nonempty (with out-of-range band indices), not empty as the
claim states. -/
theorem run_kernel_band_loop_wraps :
    (64 : ℕ) ≤ BLOCK_HEIGHT ∧ band_loop_starts 64 8 ≠ [] := by
  have hb : (2 : ℕ) ^ 64 = 18446744073709551616 := by norm_num
  refine ⟨by norm_num [BLOCK_HEIGHT], ?_⟩
  have hstep : usub64 BLOCK_HEIGHT (2 * 8) = 112 := by
    rw [usub64_of_le (by norm_num [BLOCK_HEIGHT]) (by norm_num [BLOCK_HEIGHT])]
    norm_num [BLOCK_HEIGHT]
  have hlim : usub64 64 BLOCK_HEIGHT = 2 ^ 64 - 64 := by
    rw [usub64_of_lt (by norm_num [BLOCK_HEIGHT]) (by norm_num [BLOCK_HEIGHT])]
    norm_num [BLOCK_HEIGHT]
  intro hnil
  have hlen := congrArg List.length hnil
  simp only [band_loop_starts, loop_starts, hstep, hlim, List.length_map,
    List.length_range, List.length_nil] at hlen
  rw [hb] at hlen
  omega

/-- C10 (amended): with `tile_height ≤ 128` the band loop of `run_kernel`
executes zero iterations exactly when `tile_height = 128`; for any strictly
smaller tile the unsigned bound wraps and the loop body does execute.  When
`tile_height` equals the block height, `run_kernel` only toggles the sense
flag, leaving both generations untouched (and `run_kernel_on_halo` takes its
whole-tile single-band branch for every `tile_height ≤ 128`). -/
theorem run_kernel_small_tile (tile_height halo_y : ℕ)
    (hth : tile_height ≤ BLOCK_HEIGHT) (hhy : 2 * halo_y < BLOCK_HEIGHT) :
    (band_loop_starts tile_height halo_y = [] ↔ tile_height = BLOCK_HEIGHT)
    ∧ ∀ k : Kernel, k.tile_height = BLOCK_HEIGHT →
        run_kernel k = { k with sense := 1 - k.sense } := by
  have hb : (2 : ℕ) ^ 64 = 18446744073709551616 := by norm_num
  have hBH : BLOCK_HEIGHT = 128 := rfl
  have hempty : ∀ hy : ℕ, band_loop_starts BLOCK_HEIGHT hy = [] := by
    intro hy
    have hlim : usub64 BLOCK_HEIGHT BLOCK_HEIGHT = 0 := by
      rw [usub64_of_le le_rfl (by rw [hBH]; omega)]
      omega
    simp [band_loop_starts, loop_starts, hlim]
  constructor
  · constructor
    · intro hnil
      by_contra hne
      have hlt : tile_height < 128 := by omega
      have hstep : usub64 BLOCK_HEIGHT (2 * halo_y) = 128 - 2 * halo_y := by
        rw [usub64_of_le (by omega) (by rw [hBH]; omega), hBH]
      have hlim : usub64 tile_height BLOCK_HEIGHT
          = 2 ^ 64 - (128 - tile_height) := by
        rw [usub64_of_lt (by omega) (by rw [hBH]; omega), hBH]
      have hlen := congrArg List.length hnil
      simp only [band_loop_starts, loop_starts, hstep, hlim, List.length_map,
        List.length_range, List.length_nil] at hlen
      have hpos : 0 < (2 ^ 64 - (128 - tile_height) - 1) / (128 - 2 * halo_y) :=
        Nat.div_pos (by omega) (by omega)
      omega
    · intro heq
      rw [heq]
      exact hempty halo_y
  · intro k hk
    have hnil : band_loop_starts k.tile_height k.halo_y = [] := by
      rw [hk]; exact hempty k.halo_y
    simp only [run_kernel, hnil, List.foldl_nil, Function.update_eq_self]

/-- C10 (amended, witness): at `tile_height = 128`, `halo_y = 4` the band
loop is empty. -/
theorem run_kernel_small_tile_witness : band_loop_starts 128 4 = [] :=
  ((run_kernel_small_tile 128 4 (by norm_num [BLOCK_HEIGHT])
    (by norm_num [BLOCK_HEIGHT])).1).mpr rfl


/-! ### Quadrant round-trip (C7) -/

/-- Sampling the packed quadrants de-interleaves back to the original flat
row-major field at every site of the window. -/
theorem get_quadrant_sample_pack (p : ℕ → ℚ) (tile_width x y i j : ℕ) :
    get_quadrant_sample (pack_quadrant p tile_width .q00)
      (pack_quadrant p tile_width .q01) (pack_quadrant p tile_width .q10)
      (pack_quadrant p tile_width .q11) x y i j
      = p ((y + i) * tile_width + (x + j)) := by
  simp only [get_quadrant_sample, pack_quadrant]
  by_cases h1 : (y + i) % 2 = 0
  · rw [if_pos h1]
    by_cases h2 : (x + j) % 2 = 0
    · rw [if_pos h2]
      have e1 : 2 * ((y + i) / 2) = y + i := by omega
      have e2 : 2 * ((x + j) / 2) = x + j := by omega
      rw [e1, e2]
    · rw [if_neg h2]
      have e1 : 2 * ((y + i) / 2) = y + i := by omega
      have e2 : 2 * ((x + j) / 2) + 1 = x + j := by omega
      rw [e1, Nat.add_assoc, e2]
  · rw [if_neg h1]
    by_cases h2 : (x + j) % 2 = 0
    · rw [if_pos h2]
      have e1 : 2 * ((y + i) / 2) + 1 = y + i := by omega
      have e2 : 2 * ((x + j) / 2) = x + j := by omega
      rw [e1, e2]
    · rw [if_neg h2]
      have e1 : 2 * ((y + i) / 2) + 1 = y + i := by omega
      have e2 : 2 * ((x + j) / 2) + 1 = x + j := by omega
      rw [e1, Nat.add_assoc, e2]

/-- C7: packing an even-dimension field into the four parity quadrants at
kernel construction and reading it back with `get_sample` over an in-bounds
window returns exactly the corresponding row-major sub-block of the original
field, for the real and the imaginary component alike. -/
theorem get_sample_roundtrip (p_real p_imag : ℕ → ℚ) (a b : ℚ)
    (tile_width tile_height halo_x halo_y x y w h i j : ℕ)
    (hew : tile_width % 2 = 0) (heh : tile_height % 2 = 0)
    (hxw : x + w ≤ tile_width) (hyh : y + h ≤ tile_height)
    (hi : i < h) (hj : j < w) :
    (get_sample (CPUBlockSSEKernel p_real p_imag a b tile_width tile_height
        halo_x halo_y) x y).1 i j
      = p_real ((y + i) * tile_width + (x + j))
    ∧ (get_sample (CPUBlockSSEKernel p_real p_imag a b tile_width tile_height
        halo_x halo_y) x y).2 i j
      = p_imag ((y + i) * tile_width + (x + j)) :=
  ⟨get_quadrant_sample_pack p_real tile_width x y i j,
   get_quadrant_sample_pack p_imag tile_width x y i j⟩

/-- C7 (witness): sampling a concrete 8×6 field at window (3,2) 4×3. -/
theorem get_sample_roundtrip_witness :
    (get_sample (CPUBlockSSEKernel (fun n => (n : ℚ)) (fun n => (n : ℚ) * 2)
        (1 / 2) (1 / 2) 8 6 2 2) 3 2).1 1 2
      = (((2 + 1) * 8 + (3 + 2) : ℕ) : ℚ) :=
  (get_sample_roundtrip (fun n => (n : ℚ)) (fun n => (n : ℚ) * 2) (1 / 2)
    (1 / 2) 8 6 2 2 3 2 4 3 1 2 (by norm_num) (by norm_num) (by norm_num)
    (by norm_num) (by norm_num) (by norm_num)).1


/-! ### Block-size invariance (C6): locality of the full step

`process_band_sse` applies `full_step_sse` to overlapping column blocks and
keeps only columns at distance at least `halo_x` from each interior block
edge.  The lemmas below track, pass by pass, which block columns still agree
with the untiled computation: a truncated pass edge corrupts a bounded strip,
and the corruption radius of each quadrant plane is carried through the
sixteen passes by a small table. -/

/-- Column `c` of a width-`W2` block placed at column offset `d` of a
width-`W1` band is clean for left radius `l` and right radius `r`: it is
inside the block, at distance at least `l` from an interior left block edge
(a block starting at `d = 0` shares the band's own left truncation), and at
distance more than `r` from an interior right block edge (a block ending at
`d + W2 = W1` shares the band's right truncation). -/
def cleanAt (d W1 W2 l r c : ℕ) : Prop :=
  c < W2 ∧ (d = 0 ∨ l ≤ c) ∧ (d + W2 = W1 ∨ c + r < W2)

/-- The block plane `p` agrees with the band plane `P`, shifted by `d`
columns, on every row below `H` and every clean column. -/
def PlaneAgrees (H d W1 W2 l r : ℕ) (p P : Plane) : Prop :=
  ∀ i c, i < H → cleanAt d W1 W2 l r c → p i c = P i (d + c)

/-- Agreement is monotone: growing the radii shrinks the clean region. -/
theorem PlaneAgrees.mono {H d W1 W2 l r l' r' : ℕ} {p P : Plane}
    (hp : PlaneAgrees H d W1 W2 l r p P) (hl : l ≤ l') (hr : r ≤ r') :
    PlaneAgrees H d W1 W2 l' r' p P := by
  intro i c hi hc
  refine hp i c hi ?_
  unfold cleanAt at hc ⊢
  omega

/-- A vertical pass preserves agreement plane-pair-wise: it pairs equal
columns, so both radii of both planes become the maximum of the input
radii. -/
theorem update_shifty_sse_agrees (offy H d W1 W2 : ℕ) (a b : ℚ)
    (r1 i1 r2 i2 R1 I1 R2 I2 : Plane) (l1 rr1 l2 rr2 : ℕ)
    (hW : d + W2 ≤ W1)
    (h1 : PlaneAgrees H d W1 W2 l1 rr1 r1 R1)
    (h2 : PlaneAgrees H d W1 W2 l1 rr1 i1 I1)
    (h3 : PlaneAgrees H d W1 W2 l2 rr2 r2 R2)
    (h4 : PlaneAgrees H d W1 W2 l2 rr2 i2 I2) :
    PlaneAgrees H d W1 W2 (max l1 l2) (max rr1 rr2)
      (update_shifty_sse offy W2 H a b r1 i1 r2 i2).1
      (update_shifty_sse offy W1 H a b R1 I1 R2 I2).1
    ∧ PlaneAgrees H d W1 W2 (max l1 l2) (max rr1 rr2)
      (update_shifty_sse offy W2 H a b r1 i1 r2 i2).2.1
      (update_shifty_sse offy W1 H a b R1 I1 R2 I2).2.1
    ∧ PlaneAgrees H d W1 W2 (max l1 l2) (max rr1 rr2)
      (update_shifty_sse offy W2 H a b r1 i1 r2 i2).2.2.1
      (update_shifty_sse offy W1 H a b R1 I1 R2 I2).2.2.1
    ∧ PlaneAgrees H d W1 W2 (max l1 l2) (max rr1 rr2)
      (update_shifty_sse offy W2 H a b r1 i1 r2 i2).2.2.2
      (update_shifty_sse offy W1 H a b R1 I1 R2 I2).2.2.2 := by
  refine ⟨?_, ?_, ?_, ?_⟩ <;> intro i c hi hc <;> unfold cleanAt at hc
  · have hc1 : cleanAt d W1 W2 l1 rr1 c := by unfold cleanAt; omega
    have hc2 : cleanAt d W1 W2 l2 rr2 c := by unfold cleanAt; omega
    simp only [update_shifty_sse]
    by_cases hrow : i < H - offy
    · rw [if_pos ⟨hrow, by omega⟩, if_pos ⟨hrow, by omega⟩,
        h1 i c hi hc1, h4 (i + offy) c (by omega) hc2]
    · rw [if_neg (by omega), if_neg (by omega)]
      exact h1 i c hi hc1
  · have hc1 : cleanAt d W1 W2 l1 rr1 c := by unfold cleanAt; omega
    have hc2 : cleanAt d W1 W2 l2 rr2 c := by unfold cleanAt; omega
    simp only [update_shifty_sse]
    by_cases hrow : i < H - offy
    · rw [if_pos ⟨hrow, by omega⟩, if_pos ⟨hrow, by omega⟩,
        h2 i c hi hc1, h3 (i + offy) c (by omega) hc2]
    · rw [if_neg (by omega), if_neg (by omega)]
      exact h2 i c hi hc1
  · have hc1 : cleanAt d W1 W2 l1 rr1 c := by unfold cleanAt; omega
    have hc2 : cleanAt d W1 W2 l2 rr2 c := by unfold cleanAt; omega
    simp only [update_shifty_sse]
    by_cases hrow : offy ≤ i ∧ i < H
    · rw [if_pos ⟨hrow.1, hrow.2, by omega⟩, if_pos ⟨hrow.1, hrow.2, by omega⟩,
        h3 i c hi hc2, h2 (i - offy) c (by omega) hc1]
    · rw [if_neg (by omega), if_neg (by omega)]
      exact h3 i c hi hc2
  · have hc1 : cleanAt d W1 W2 l1 rr1 c := by unfold cleanAt; omega
    have hc2 : cleanAt d W1 W2 l2 rr2 c := by unfold cleanAt; omega
    simp only [update_shifty_sse]
    by_cases hrow : offy ≤ i ∧ i < H
    · rw [if_pos ⟨hrow.1, hrow.2, by omega⟩, if_pos ⟨hrow.1, hrow.2, by omega⟩,
        h4 i c hi hc2, h1 (i - offy) c (by omega) hc1]
    · rw [if_neg (by omega), if_neg (by omega)]
      exact h4 i c hi hc2

/-- A shift-by-0 horizontal pass also pairs equal columns; same radii rule as
the vertical passes. -/
theorem update_shiftx_sse_zero_agrees (H d W1 W2 : ℕ) (a b : ℚ)
    (r1 i1 r2 i2 R1 I1 R2 I2 : Plane) (l1 rr1 l2 rr2 : ℕ)
    (hW : d + W2 ≤ W1)
    (h1 : PlaneAgrees H d W1 W2 l1 rr1 r1 R1)
    (h2 : PlaneAgrees H d W1 W2 l1 rr1 i1 I1)
    (h3 : PlaneAgrees H d W1 W2 l2 rr2 r2 R2)
    (h4 : PlaneAgrees H d W1 W2 l2 rr2 i2 I2) :
    PlaneAgrees H d W1 W2 (max l1 l2) (max rr1 rr2)
      (update_shiftx_sse 0 W2 H a b r1 i1 r2 i2).1
      (update_shiftx_sse 0 W1 H a b R1 I1 R2 I2).1
    ∧ PlaneAgrees H d W1 W2 (max l1 l2) (max rr1 rr2)
      (update_shiftx_sse 0 W2 H a b r1 i1 r2 i2).2.1
      (update_shiftx_sse 0 W1 H a b R1 I1 R2 I2).2.1
    ∧ PlaneAgrees H d W1 W2 (max l1 l2) (max rr1 rr2)
      (update_shiftx_sse 0 W2 H a b r1 i1 r2 i2).2.2.1
      (update_shiftx_sse 0 W1 H a b R1 I1 R2 I2).2.2.1
    ∧ PlaneAgrees H d W1 W2 (max l1 l2) (max rr1 rr2)
      (update_shiftx_sse 0 W2 H a b r1 i1 r2 i2).2.2.2
      (update_shiftx_sse 0 W1 H a b R1 I1 R2 I2).2.2.2 := by
  refine ⟨?_, ?_, ?_, ?_⟩ <;> intro i c hi hc <;> unfold cleanAt at hc <;>
    [skip; skip; skip; skip] <;>
    simp only [update_shiftx_sse, Nat.sub_zero, Nat.add_zero]
  · have hc1 : cleanAt d W1 W2 l1 rr1 c := by unfold cleanAt; omega
    have hc2 : cleanAt d W1 W2 l2 rr2 c := by unfold cleanAt; omega
    rw [if_pos ⟨hi, by omega⟩, if_pos ⟨hi, by omega⟩,
      h1 i c hi hc1, h4 i c hi hc2]
  · have hc1 : cleanAt d W1 W2 l1 rr1 c := by unfold cleanAt; omega
    have hc2 : cleanAt d W1 W2 l2 rr2 c := by unfold cleanAt; omega
    rw [if_pos ⟨hi, by omega⟩, if_pos ⟨hi, by omega⟩,
      h2 i c hi hc1, h3 i c hi hc2]
  · have hc1 : cleanAt d W1 W2 l1 rr1 c := by unfold cleanAt; omega
    have hc2 : cleanAt d W1 W2 l2 rr2 c := by unfold cleanAt; omega
    rw [if_pos ⟨hi, by omega, by omega⟩, if_pos ⟨hi, by omega, by omega⟩,
      h3 i c hi hc2, h2 i c hi hc1]
  · have hc1 : cleanAt d W1 W2 l1 rr1 c := by unfold cleanAt; omega
    have hc2 : cleanAt d W1 W2 l2 rr2 c := by unfold cleanAt; omega
    rw [if_pos ⟨hi, by omega, by omega⟩, if_pos ⟨hi, by omega, by omega⟩,
      h4 i c hi hc2, h1 i c hi hc1]

/-- A shift-by-1 horizontal pass pairs column `c` of the first plane pair
with column `c + 1` of the second.  The first pair inherits the second
pair's right corruption advanced by one column and a fresh one-column right
edge; the second pair inherits the first pair's left corruption advanced by
one column and a fresh one-column left edge. -/
theorem update_shiftx_sse_one_agrees (H d W1 W2 : ℕ) (a b : ℚ)
    (r1 i1 r2 i2 R1 I1 R2 I2 : Plane) (l1 rr1 l2 rr2 : ℕ)
    (hW : d + W2 ≤ W1)
    (h1 : PlaneAgrees H d W1 W2 l1 rr1 r1 R1)
    (h2 : PlaneAgrees H d W1 W2 l1 rr1 i1 I1)
    (h3 : PlaneAgrees H d W1 W2 l2 rr2 r2 R2)
    (h4 : PlaneAgrees H d W1 W2 l2 rr2 i2 I2) :
    PlaneAgrees H d W1 W2 (max l1 (l2 - 1)) (max (max rr1 (rr2 + 1)) 1)
      (update_shiftx_sse 1 W2 H a b r1 i1 r2 i2).1
      (update_shiftx_sse 1 W1 H a b R1 I1 R2 I2).1
    ∧ PlaneAgrees H d W1 W2 (max l1 (l2 - 1)) (max (max rr1 (rr2 + 1)) 1)
      (update_shiftx_sse 1 W2 H a b r1 i1 r2 i2).2.1
      (update_shiftx_sse 1 W1 H a b R1 I1 R2 I2).2.1
    ∧ PlaneAgrees H d W1 W2 (max (max l2 (l1 + 1)) 1) (max rr2 (rr1 - 1))
      (update_shiftx_sse 1 W2 H a b r1 i1 r2 i2).2.2.1
      (update_shiftx_sse 1 W1 H a b R1 I1 R2 I2).2.2.1
    ∧ PlaneAgrees H d W1 W2 (max (max l2 (l1 + 1)) 1) (max rr2 (rr1 - 1))
      (update_shiftx_sse 1 W2 H a b r1 i1 r2 i2).2.2.2
      (update_shiftx_sse 1 W1 H a b R1 I1 R2 I2).2.2.2 := by
  have plane1 : ∀ (p q : Plane) (P Q : Plane) (sign : ℚ),
      PlaneAgrees H d W1 W2 l1 rr1 p P → PlaneAgrees H d W1 W2 l2 rr2 q Q →
      PlaneAgrees H d W1 W2 (max l1 (l2 - 1)) (max (max rr1 (rr2 + 1)) 1)
        (fun i c => if i < H ∧ c < W2 - 1 then a * p i c + sign * q i (c + 1) else p i c)
        (fun i c => if i < H ∧ c < W1 - 1 then a * P i c + sign * Q i (c + 1) else P i c) := by
    intro p q P Q sign hp hq i c hi hc
    unfold cleanAt at hc
    have hc1 : cleanAt d W1 W2 l1 rr1 c := by unfold cleanAt; omega
    beta_reduce
    by_cases hcol : c < W2 - 1
    · have hc2 : cleanAt d W1 W2 l2 rr2 (c + 1) := by unfold cleanAt; omega
      rw [if_pos ⟨hi, hcol⟩, if_pos ⟨hi, by omega⟩, hp i c hi hc1,
        hq i (c + 1) hi hc2]
      have e : d + (c + 1) = d + c + 1 := by omega
      rw [e]
    · rw [if_neg (by omega)]
      have hedge : d + W2 = W1 := by omega
      rw [if_neg (by omega)]
      exact hp i c hi hc1
  have plane2 : ∀ (p q : Plane) (P Q : Plane) (sign : ℚ),
      PlaneAgrees H d W1 W2 l2 rr2 p P → PlaneAgrees H d W1 W2 l1 rr1 q Q →
      PlaneAgrees H d W1 W2 (max (max l2 (l1 + 1)) 1) (max rr2 (rr1 - 1))
        (fun i c => if i < H ∧ 1 ≤ c ∧ c < W2 then a * p i c + sign * q i (c - 1) else p i c)
        (fun i c => if i < H ∧ 1 ≤ c ∧ c < W1 then a * P i c + sign * Q i (c - 1) else P i c) := by
    intro p q P Q sign hp hq i c hi hc
    unfold cleanAt at hc
    have hc2 : cleanAt d W1 W2 l2 rr2 c := by unfold cleanAt; omega
    beta_reduce
    by_cases hcol : 1 ≤ c
    · have hc1 : cleanAt d W1 W2 l1 rr1 (c - 1) := by unfold cleanAt; omega
      rw [if_pos ⟨hi, hcol, by omega⟩, if_pos ⟨hi, by omega, by omega⟩,
        hp i c hi hc2, hq i (c - 1) hi hc1]
      have e : d + (c - 1) = d + c - 1 := by omega
      rw [e]
    · have hd : d = 0 := by omega
      rw [if_neg (by omega), if_neg (by omega)]
      exact hp i c hi hc2
  refine ⟨?_, ?_, ?_, ?_⟩
  · have key := plane1 r1 i2 R1 I2 (-b) h1 h4
    intro i c hi hc
    have := key i c hi hc
    simp only [update_shiftx_sse]
    simpa [sub_eq_add_neg, neg_mul] using this
  · have key := plane1 i1 r2 I1 R2 b h2 h3
    intro i c hi hc
    have := key i c hi hc
    simp only [update_shiftx_sse]
    simpa using this
  · have key := plane2 r2 i1 R2 I1 (-b) h3 h2
    intro i c hi hc
    have := key i c hi hc
    simp only [update_shiftx_sse]
    simpa [sub_eq_add_neg, neg_mul] using this
  · have key := plane2 i2 r1 I2 R1 b h4 h1
    intro i c hi hc
    have := key i c hi hc
    simp only [update_shiftx_sse]
    simpa using this


/-- Per-quadrant corruption radii: the block state agrees with the shifted
band state on every plane of quadrant `q`, with the clean region given by the
table entry `(left radius, right radius)`. -/
def QAgrees (H d W1 W2 : ℕ) (tab : QuadId → ℕ × ℕ) (s S : QState) : Prop :=
  ∀ (q : QuadId) (im : Bool),
    PlaneAgrees H d W1 W2 (tab q).1 (tab q).2 (qsel q im s) (qsel q im S)

/-- How one pass updates the radii table: same-column passes merge the two
quadrants' radii; the shift-by-1 horizontal pass additionally advances
corruption by one column and corrupts one fresh column at each interior
block edge. -/
def passTabUpd (c : PassCall) (tab : QuadId → ℕ × ℕ) : QuadId → ℕ × ℕ :=
  fun q =>
    match c.kind with
    | .shifty0 | .shifty1 | .shiftx0 =>
        if q = c.plane1 ∨ q = c.plane2 then
          (max (tab c.plane1).1 (tab c.plane2).1,
           max (tab c.plane1).2 (tab c.plane2).2)
        else tab q
    | .shiftx1 =>
        if q = c.plane1 then
          (max (tab c.plane1).1 ((tab c.plane2).1 - 1),
           max (max (tab c.plane1).2 ((tab c.plane2).2 + 1)) 1)
        else if q = c.plane2 then
          (max (max (tab c.plane2).1 ((tab c.plane1).1 + 1)) 1,
           max (tab c.plane2).2 ((tab c.plane1).2 - 1))
        else tab q

/-- Selecting a plane after a quadrant replacement. -/
theorem qsel_setQuad (q q' : QuadId) (im : Bool) (r i : Plane) (s : QState) :
    qsel q im (setQuad q' r i s)
      = if q = q' then (if im then i else r) else qsel q im s := by
  cases q <;> cases q' <;> cases im <;> simp [qsel, setQuad]

/-- One described pass preserves quadrant agreement, with the radii table
updated by `passTabUpd`. -/
theorem applyPassCall_agrees (H d W1 W2 : ℕ) (a b : ℚ) (c : PassCall)
    (hne : c.plane1 ≠ c.plane2) (tab : QuadId → ℕ × ℕ) (s S : QState)
    (hW : d + W2 ≤ W1) (h : QAgrees H d W1 W2 tab s S) :
    QAgrees H d W1 W2 (passTabUpd c tab)
      (applyPassCall W2 H a b c s) (applyPassCall W1 H a b c S) := by
  obtain ⟨kind, p1, p2⟩ := c
  simp only at hne
  intro q im
  cases kind
  case shifty0 =>
    have key := update_shifty_sse_agrees 0 H d W1 W2 a b
      (qsel p1 false s) (qsel p1 true s) (qsel p2 false s) (qsel p2 true s)
      (qsel p1 false S) (qsel p1 true S) (qsel p2 false S) (qsel p2 true S)
      (tab p1).1 (tab p1).2 (tab p2).1 (tab p2).2 hW
      (h p1 false) (h p1 true) (h p2 false) (h p2 true)
    simp only [applyPassCall, passTabUpd, qsel_setQuad]
    by_cases hq2 : q = p2
    · subst hq2
      have e : (q = p1) = False := eq_false (fun hqq => hne (hqq ▸ rfl))
      simp only [e, eq_self_iff_true, if_true, or_true]
      cases im
      · exact key.2.2.1
      · exact key.2.2.2
    · by_cases hq1 : q = p1
      · subst hq1
        have e : (q = p2) = False := eq_false hq2
        simp only [e, eq_self_iff_true, if_true, if_false, true_or]
        cases im
        · exact key.1
        · exact key.2.1
      · have e1 : (q = p1) = False := eq_false hq1
        have e2 : (q = p2) = False := eq_false hq2
        simp only [e1, e2, if_false, or_self]
        exact h q im
  case shifty1 =>
    have key := update_shifty_sse_agrees 1 H d W1 W2 a b
      (qsel p1 false s) (qsel p1 true s) (qsel p2 false s) (qsel p2 true s)
      (qsel p1 false S) (qsel p1 true S) (qsel p2 false S) (qsel p2 true S)
      (tab p1).1 (tab p1).2 (tab p2).1 (tab p2).2 hW
      (h p1 false) (h p1 true) (h p2 false) (h p2 true)
    simp only [applyPassCall, passTabUpd, qsel_setQuad]
    by_cases hq2 : q = p2
    · subst hq2
      have e : (q = p1) = False := eq_false (fun hqq => hne (hqq ▸ rfl))
      simp only [e, eq_self_iff_true, if_true, or_true]
      cases im
      · exact key.2.2.1
      · exact key.2.2.2
    · by_cases hq1 : q = p1
      · subst hq1
        have e : (q = p2) = False := eq_false hq2
        simp only [e, eq_self_iff_true, if_true, if_false, true_or]
        cases im
        · exact key.1
        · exact key.2.1
      · have e1 : (q = p1) = False := eq_false hq1
        have e2 : (q = p2) = False := eq_false hq2
        simp only [e1, e2, if_false, or_self]
        exact h q im
  case shiftx0 =>
    have key := update_shiftx_sse_zero_agrees H d W1 W2 a b
      (qsel p1 false s) (qsel p1 true s) (qsel p2 false s) (qsel p2 true s)
      (qsel p1 false S) (qsel p1 true S) (qsel p2 false S) (qsel p2 true S)
      (tab p1).1 (tab p1).2 (tab p2).1 (tab p2).2 hW
      (h p1 false) (h p1 true) (h p2 false) (h p2 true)
    simp only [applyPassCall, passTabUpd, qsel_setQuad]
    by_cases hq2 : q = p2
    · subst hq2
      have e : (q = p1) = False := eq_false (fun hqq => hne (hqq ▸ rfl))
      simp only [e, eq_self_iff_true, if_true, or_true]
      cases im
      · exact key.2.2.1
      · exact key.2.2.2
    · by_cases hq1 : q = p1
      · subst hq1
        have e : (q = p2) = False := eq_false hq2
        simp only [e, eq_self_iff_true, if_true, if_false, true_or]
        cases im
        · exact key.1
        · exact key.2.1
      · have e1 : (q = p1) = False := eq_false hq1
        have e2 : (q = p2) = False := eq_false hq2
        simp only [e1, e2, if_false, or_self]
        exact h q im
  case shiftx1 =>
    have key := update_shiftx_sse_one_agrees H d W1 W2 a b
      (qsel p1 false s) (qsel p1 true s) (qsel p2 false s) (qsel p2 true s)
      (qsel p1 false S) (qsel p1 true S) (qsel p2 false S) (qsel p2 true S)
      (tab p1).1 (tab p1).2 (tab p2).1 (tab p2).2 hW
      (h p1 false) (h p1 true) (h p2 false) (h p2 true)
    simp only [applyPassCall, passTabUpd, qsel_setQuad]
    by_cases hq2 : q = p2
    · subst hq2
      have e : (q = p1) = False := eq_false (fun hqq => hne (hqq ▸ rfl))
      simp only [e, eq_self_iff_true, if_true, if_false]
      cases im
      · exact key.2.2.1
      · exact key.2.2.2
    · by_cases hq1 : q = p1
      · subst hq1
        have e : (q = p2) = False := eq_false hq2
        simp only [e, eq_self_iff_true, if_true, if_false]
        cases im
        · exact key.1
        · exact key.2.1
      · have e1 : (q = p1) = False := eq_false hq1
        have e2 : (q = p2) = False := eq_false hq2
        simp only [e1, e2, if_false]
        exact h q im

/-- Folding a pass list preserves quadrant agreement with the folded radii
table. -/
theorem foldl_applyPassCall_agrees (H d W1 W2 : ℕ) (a b : ℚ)
    (hW : d + W2 ≤ W1) :
    ∀ calls : List PassCall, (∀ c ∈ calls, c.plane1 ≠ c.plane2) →
      ∀ (tab : QuadId → ℕ × ℕ) (s S : QState), QAgrees H d W1 W2 tab s S →
        QAgrees H d W1 W2 (calls.foldl (fun t c => passTabUpd c t) tab)
          (calls.foldl (fun st c => applyPassCall W2 H a b c st) s)
          (calls.foldl (fun st c => applyPassCall W1 H a b c st) S) := by
  intro calls
  induction calls with
  | nil => intro _ tab s S h; simpa using h
  | cons c cs ih =>
      intro hcalls tab s S h
      simp only [List.foldl_cons]
      exact ih (fun c' hc' => hcalls c' (List.mem_cons_of_mem c hc'))
        (passTabUpd c tab) _ _
        (applyPassCall_agrees H d W1 W2 a b c
          (hcalls c (List.mem_cons_self c cs)) tab s S hW h)

/-- The master locality lemma: if the width-`W2` block state placed at column
offset `d` agrees with the width-`W1` band state on all its columns, then
after a full step the two agree on every block column at distance at least 2
from each interior block edge — the horizontal dependency/corruption reach of
the sixteen passes is two quadrant columns (four lattice columns, the stencil
reach `halo_x = 4`). -/
theorem full_step_sse_agrees (H d W1 W2 : ℕ) (a b : ℚ) (s S : QState)
    (hW : d + W2 ≤ W1)
    (h : QAgrees H d W1 W2 (fun _ => (0, 0)) s S) :
    QAgrees H d W1 W2 (fun _ => (2, 2))
      (full_step_sse W2 H a b s) (full_step_sse W1 H a b S) := by
  have hcalls : ∀ c ∈ fullStepCalls, c.plane1 ≠ c.plane2 := by decide
  have key := foldl_applyPassCall_agrees H d W1 W2 a b hW fullStepCalls hcalls
    (fun _ => (0, 0)) s S h
  have hbound : ∀ q : QuadId,
      (fullStepCalls.foldl (fun t c => passTabUpd c t) (fun _ => (0, 0)) q).1 ≤ 2
        ∧ (fullStepCalls.foldl (fun t c => passTabUpd c t) (fun _ => (0, 0)) q).2 ≤ 2 := by
    intro q
    cases q <;> exact ⟨by decide, by decide⟩
  rw [full_step_sse_eq_foldl W2 H a b s, full_step_sse_eq_foldl W1 H a b S]
  intro q im
  exact (key q im).mono (hbound q).1 (hbound q).2


/-- Selecting a plane after the eight-plane copy. -/
theorem qsel_memcpy2D_all (q : QuadId) (im : Bool) (dst src : QState)
    (dst_row dst_col src_row src_col w h : ℕ) :
    qsel q im (memcpy2D_all dst src dst_row dst_col src_row src_col w h)
      = memcpy2D (qsel q im dst) (qsel q im src) dst_row dst_col src_row
          src_col w h := by
  cases q <;> cases im <;> rfl

/-- A block freshly copied out of the band (at column offset `d`, width at
least `W2`) and run through the full step agrees with the full step of the
whole band on all clean columns. -/
theorem block_full_step_agrees (a b : ℚ) (cur : QState) (H d W1 W2 w : ℕ)
    (hW : d + W2 ≤ W1) (hw : W2 ≤ w) :
    QAgrees H d W1 W2 (fun _ => (2, 2))
      (full_step_sse W2 H a b (memcpy2D_all zeroQState cur 0 0 0 d w H))
      (full_step_sse W1 H a b cur) := by
  apply full_step_sse_agrees H d W1 W2 a b _ _ hW
  intro q im i c hi hc
  unfold cleanAt at hc
  rw [qsel_memcpy2D_all]
  simp only [memcpy2D]
  rw [if_pos ⟨Nat.zero_le i, by omega, Nat.zero_le c, by omega⟩]
  have e1 : 0 + (i - 0) = i := by omega
  have e2 : d + (c - 0) = d + c := by omega
  rw [e1, e2]

/-- `process_band_sse` for the 64×8 band at block width 32: first block
(columns 0-13), remainder block (columns 26-31), one middle block
(columns 14-25). -/
theorem band32_unfold (a b : ℚ) (cur nxt : QState) :
    process_band_sse 0 8 0 8 32 128 64 4 a b cur nxt true true
      = memcpy2D_all
          (memcpy2D_all
            (memcpy2D_all nxt
              (full_step_sse 16 4 a b (memcpy2D_all zeroQState cur 0 0 0 0 16 4))
              0 0 0 0 14 4)
            (full_step_sse 8 4 a b (memcpy2D_all zeroQState cur 0 0 0 24 8 4))
            0 26 0 2 6 4)
          (full_step_sse 16 4 a b (memcpy2D_all zeroQState cur 0 0 0 12 16 4))
          0 14 0 2 12 4 := by
  rfl

/-- `process_band_sse` for the 64×8 band at block width 128: the whole band
as one full block. -/
theorem band128_unfold (a b : ℚ) (cur nxt : QState) :
    process_band_sse 0 8 0 8 128 128 64 4 a b cur nxt true true
      = memcpy2D_all nxt
          (full_step_sse 32 4 a b (memcpy2D_all zeroQState cur 0 0 0 0 32 4))
          0 0 0 0 32 4 := by
  rfl

/-- Inside the tile, the block-width-32 band equals the untiled full step of
the band. -/
theorem process_band_32_char (a b : ℚ) (cur nxt : QState) (q : QuadId)
    (im : Bool) (i c : ℕ) (hi : i < 4) (hc : c < 32) :
    qsel q im (process_band_sse 0 8 0 8 32 128 64 4 a b cur nxt true true) i c
      = qsel q im (full_step_sse 32 4 a b cur) i c := by
  rw [band32_unfold, qsel_memcpy2D_all]
  simp only [memcpy2D]
  by_cases hmid : 14 ≤ c ∧ c < 26
  · rw [if_pos ⟨by omega, by omega, by omega, by omega⟩]
    have key := block_full_step_agrees a b cur 4 12 32 16 16 (by omega)
      (by omega) q im
    have e1 : 0 + (i - 0) = i := by omega
    have e2 : 2 + (c - 14) = c - 12 := by omega
    rw [e1, e2]
    have hcl : cleanAt 12 32 16 2 2 (c - 12) := by unfold cleanAt; omega
    rw [key i (c - 12) hi hcl]
    have e3 : 12 + (c - 12) = c := by omega
    rw [e3]
  · rw [if_neg (by omega), qsel_memcpy2D_all]
    simp only [memcpy2D]
    by_cases hlast : 26 ≤ c
    · rw [if_pos ⟨by omega, by omega, by omega, by omega⟩]
      have key := block_full_step_agrees a b cur 4 24 32 8 8 (by omega)
        (by omega) q im
      have e1 : 0 + (i - 0) = i := by omega
      have e2 : 2 + (c - 26) = c - 24 := by omega
      rw [e1, e2]
      have hcl : cleanAt 24 32 8 2 2 (c - 24) := by unfold cleanAt; omega
      rw [key i (c - 24) hi hcl]
      have e3 : 24 + (c - 24) = c := by omega
      rw [e3]
    · rw [if_neg (by omega), qsel_memcpy2D_all]
      simp only [memcpy2D]
      rw [if_pos ⟨by omega, by omega, by omega, by omega⟩]
      have key := block_full_step_agrees a b cur 4 0 32 16 16 (by omega)
        (by omega) q im
      have e1 : 0 + (i - 0) = i := by omega
      have e2 : 0 + (c - 0) = c := by omega
      rw [e1, e2]
      have hcl : cleanAt 0 32 16 2 2 c := by unfold cleanAt; omega
      rw [key i c hi hcl]
      have e3 : 0 + c = c := by omega
      rw [e3]

/-- Inside the tile, the block-width-128 band also equals the untiled full
step of the band. -/
theorem process_band_128_char (a b : ℚ) (cur nxt : QState) (q : QuadId)
    (im : Bool) (i c : ℕ) (hi : i < 4) (hc : c < 32) :
    qsel q im (process_band_sse 0 8 0 8 128 128 64 4 a b cur nxt true true) i c
      = qsel q im (full_step_sse 32 4 a b cur) i c := by
  rw [band128_unfold, qsel_memcpy2D_all]
  simp only [memcpy2D]
  rw [if_pos ⟨by omega, by omega, by omega, by omega⟩]
  have key := block_full_step_agrees a b cur 4 0 32 32 32 (by omega)
    (by omega) q im
  have e1 : 0 + (i - 0) = i := by omega
  have e2 : 0 + (c - 0) = c := by omega
  rw [e1, e2]
  have hcl : cleanAt 0 32 32 2 2 c := by unfold cleanAt; omega
  rw [key i c hi hcl]
  have e3 : 0 + c = c := by omega
  rw [e3]

/-- Outside the tile, the block-width-32 band leaves the output untouched. -/
theorem process_band_32_frame (a b : ℚ) (cur nxt : QState) (q : QuadId)
    (im : Bool) (i c : ℕ) (hout : ¬(i < 4 ∧ c < 32)) :
    qsel q im (process_band_sse 0 8 0 8 32 128 64 4 a b cur nxt true true) i c
      = qsel q im nxt i c := by
  rw [band32_unfold, qsel_memcpy2D_all]
  simp only [memcpy2D]
  rw [if_neg (by omega), qsel_memcpy2D_all]
  simp only [memcpy2D]
  rw [if_neg (by omega), qsel_memcpy2D_all]
  simp only [memcpy2D]
  rw [if_neg (by omega)]

/-- Outside the tile, the block-width-128 band leaves the output untouched. -/
theorem process_band_128_frame (a b : ℚ) (cur nxt : QState) (q : QuadId)
    (im : Bool) (i c : ℕ) (hout : ¬(i < 4 ∧ c < 32)) :
    qsel q im (process_band_sse 0 8 0 8 128 128 64 4 a b cur nxt true true) i c
      = qsel q im nxt i c := by
  rw [band128_unfold, qsel_memcpy2D_all]
  simp only [memcpy2D]
  rw [if_neg (by omega)]

/-- C6: for every field and coefficients, processing one full band of a
64-wide, 8-high tile with the stencil-reach halo `halo_x = 4` yields exactly
the same next-generation state at block width 32 (first, middle and
remainder blocks with halo overlap) as at block width 128 (one full block):
the block tiling is not observable. -/
theorem process_band_block_size_invariant (a b : ℚ) (cur nxt : QState) :
    process_band_sse 0 8 0 8 32 128 64 4 a b cur nxt true true
      = process_band_sse 0 8 0 8 128 128 64 4 a b cur nxt true true := by
  have hq : ∀ (q : QuadId) (im : Bool),
      qsel q im (process_band_sse 0 8 0 8 32 128 64 4 a b cur nxt true true)
        = qsel q im (process_band_sse 0 8 0 8 128 128 64 4 a b cur nxt true true) := by
    intro q im
    funext i c
    by_cases hin : i < 4 ∧ c < 32
    · rw [process_band_32_char a b cur nxt q im i c hin.1 hin.2,
        process_band_128_char a b cur nxt q im i c hin.1 hin.2]
    · rw [process_band_32_frame a b cur nxt q im i c hin,
        process_band_128_frame a b cur nxt q im i c hin]
  exact QState.ext (hq .q00 false) (hq .q00 true) (hq .q01 false)
    (hq .q01 true) (hq .q10 false) (hq .q10 true) (hq .q11 false)
    (hq .q11 true)


/-! ### The per-iteration contract (C1) -/

/-- A concrete 256×256 kernel with zero field, halo 4. -/
def zeroKernel256 : Kernel where
  tile_width := 256
  tile_height := 256
  halo_x := 4
  halo_y := 4
  a := 0
  b := 0
  gens := fun _ => zeroQState
  sense := 0

/-- C1 (counterexample): the generation flip happens inside `run_kernel`
itself (`sense = 1 - sense` is its last statement).  Under the claimed
mandated order — `start_halo_exchange(); run_kernel(); finish_halo_exchange();
run_kernel_on_halo(); flip` — the flag has therefore already flipped before
`run_kernel_on_halo` runs: the flip is mid-step, and `run_kernel_on_halo`
reads the opposite generation from the one `run_kernel` read. -/
theorem run_kernel_flips_sense_mid_iteration :
    (run_kernel zeroKernel256).sense ≠ zeroKernel256.sense := by
  decide

/-- The quadrant-coordinate region written by `run_kernel` at the 256×256,
halo-4 geometry: its single middle band (rows 62-121) restricted to middle
block columns (62-121). -/
def rk_region (i c : ℕ) : Prop :=
  62 ≤ i ∧ i < 122 ∧ 62 ≤ c ∧ c < 122

/-- The quadrant-coordinate region written by `run_kernel_on_halo` at the
same geometry: the first band (rows 0-61, all columns), the last band
(rows 122-127, all columns), and the side columns of the middle band. -/
def rkoh_region (i c : ℕ) : Prop :=
  i < 62 ∨ 122 ≤ i ∨ (62 ≤ i ∧ i < 122 ∧ (c < 62 ∨ 122 ≤ c))

/-- The `run_kernel` middle band at the 256-geometry, unfolded to its single
block writeback. -/
theorem band_rk_unfold (a b : ℚ) (cur nx : QState) :
    process_band_sse 120 128 4 120 128 128 256 4 a b cur nx true false
      = memcpy2D_all nx
          (full_step_sse 64 64 a b (memcpy2D_all zeroQState cur 0 0 60 60 64 64))
          62 62 2 2 60 60 := by
  rfl

/-- The `run_kernel_on_halo` middle band (sides only), unfolded to its first
and remainder block writebacks. -/
theorem band_mid_sides_unfold (a b : ℚ) (cur nx : QState) :
    process_band_sse 120 128 4 120 128 128 256 4 a b cur nx false true
      = memcpy2D_all
          (memcpy2D_all nx
            (full_step_sse 64 64 a b (memcpy2D_all zeroQState cur 0 0 60 0 64 64))
            62 0 2 0 62 60)
          (full_step_sse 8 64 a b (memcpy2D_all zeroQState cur 0 0 60 120 8 64))
          62 122 2 2 6 60 := by
  rfl

/-- The first band of `run_kernel_on_halo`, unfolded to its three block
writebacks. -/
theorem band_first_unfold (a b : ℚ) (cur nx : QState) :
    process_band_sse 0 128 0 124 128 128 256 4 a b cur nx true true
      = memcpy2D_all
          (memcpy2D_all
            (memcpy2D_all nx
              (full_step_sse 64 64 a b (memcpy2D_all zeroQState cur 0 0 0 0 64 64))
              0 0 0 0 62 62)
            (full_step_sse 8 64 a b (memcpy2D_all zeroQState cur 0 0 0 120 8 64))
            0 122 0 2 6 62)
          (full_step_sse 64 64 a b (memcpy2D_all zeroQState cur 0 0 0 60 64 64))
          0 62 0 2 60 62 := by
  rfl

/-- The last band of `run_kernel_on_halo`, unfolded to its three block
writebacks. -/
theorem band_last_unfold (a b : ℚ) (cur nx : QState) :
    process_band_sse 240 16 4 12 128 128 256 4 a b cur nx true true
      = memcpy2D_all
          (memcpy2D_all
            (memcpy2D_all nx
              (full_step_sse 64 8 a b (memcpy2D_all zeroQState cur 0 0 120 0 64 8))
              122 0 2 0 62 6)
            (full_step_sse 8 8 a b (memcpy2D_all zeroQState cur 0 0 120 120 8 8))
            122 122 2 2 6 6)
          (full_step_sse 64 8 a b (memcpy2D_all zeroQState cur 0 0 120 60 64 8))
          122 62 2 2 60 6 := by
  rfl

/-- The `run_kernel` middle band writes only `rk_region`. -/
theorem band_rk_frame (a b : ℚ) (cur nx : QState) (q : QuadId) (im : Bool)
    (i c : ℕ) (h : ¬rk_region i c) :
    qsel q im (process_band_sse 120 128 4 120 128 128 256 4 a b cur nx
      true false) i c = qsel q im nx i c := by
  unfold rk_region at h
  rw [band_rk_unfold, qsel_memcpy2D_all]
  simp only [memcpy2D]
  rw [if_neg (by omega)]

/-- The middle-band sides write only the middle-band part of `rkoh_region`. -/
theorem band_mid_sides_frame (a b : ℚ) (cur nx : QState) (q : QuadId)
    (im : Bool) (i c : ℕ)
    (h : ¬(62 ≤ i ∧ i < 122 ∧ (c < 62 ∨ 122 ≤ c))) :
    qsel q im (process_band_sse 120 128 4 120 128 128 256 4 a b cur nx
      false true) i c = qsel q im nx i c := by
  rw [band_mid_sides_unfold, qsel_memcpy2D_all]
  simp only [memcpy2D]
  rw [if_neg (by omega), qsel_memcpy2D_all]
  simp only [memcpy2D]
  rw [if_neg (by omega)]

/-- The first band writes only rows below 62. -/
theorem band_first_frame (a b : ℚ) (cur nx : QState) (q : QuadId) (im : Bool)
    (i c : ℕ) (h : ¬i < 62) :
    qsel q im (process_band_sse 0 128 0 124 128 128 256 4 a b cur nx
      true true) i c = qsel q im nx i c := by
  rw [band_first_unfold, qsel_memcpy2D_all]
  simp only [memcpy2D]
  rw [if_neg (by omega), qsel_memcpy2D_all]
  simp only [memcpy2D]
  rw [if_neg (by omega), qsel_memcpy2D_all]
  simp only [memcpy2D]
  rw [if_neg (by omega)]

/-- The last band writes only rows 122-127. -/
theorem band_last_frame (a b : ℚ) (cur nx : QState) (q : QuadId) (im : Bool)
    (i c : ℕ) (h : ¬(122 ≤ i ∧ i < 128)) :
    qsel q im (process_band_sse 240 16 4 12 128 128 256 4 a b cur nx
      true true) i c = qsel q im nx i c := by
  rw [band_last_unfold, qsel_memcpy2D_all]
  simp only [memcpy2D]
  rw [if_neg (by omega), qsel_memcpy2D_all]
  simp only [memcpy2D]
  rw [if_neg (by omega), qsel_memcpy2D_all]
  simp only [memcpy2D]
  rw [if_neg (by omega)]

/-- One cached block of `process_band_sse`: the `w × h` quadrant block of the
current generation `cur` with top-left corner `(r0, c0)`, copied into the
zero-initialised scratch buffer and advanced by one full step, exactly as the
band code computes it before writing it back. -/
def band_block (a b : ℚ) (cur : QState) (r0 c0 w h : ℕ) : QState :=
  full_step_sse w h a b (memcpy2D_all zeroQState cur 0 0 r0 c0 w h)

/-- The band loop at the 256-geometry runs exactly one middle band, at row
offset 120. -/
theorem band_loop_starts_256 : band_loop_starts 256 4 = [120] := by decide

/-- The last-band start row of `run_kernel_on_halo` at the 256-geometry. -/
theorem last_band_start_256 :
    usub64 128 (2 * 4) * ((usub64 256 128 - 1) / usub64 128 (2 * 4) + 1)
      = 240 := by
  decide

/-- `run_kernel_on_halo` at the 256-geometry, unfolded to its three band
calls — middle-band sides, then first band, then last band — all reading the
entry current generation `k.gens k.sense` and accumulating into the other
generation. -/
theorem rkoh_unfold_256 (k : Kernel)
    (hw : k.tile_width = 256) (hh : k.tile_height = 256)
    (hx : k.halo_x = 4) (hy : k.halo_y = 4) :
    (run_kernel_on_halo k).gens (1 - k.sense)
      = process_band_sse 240 16 4 12 128 128 256 4 k.a k.b (k.gens k.sense)
          (process_band_sse 0 128 0 124 128 128 256 4 k.a k.b (k.gens k.sense)
            (process_band_sse 120 128 4 120 128 128 256 4 k.a k.b
              (k.gens k.sense) (k.gens (1 - k.sense)) false true)
            true true)
          true true := by
  simp only [run_kernel_on_halo, Function.update_same]
  rw [hh, hy, hx, hw]
  rw [if_neg (by norm_num [BLOCK_HEIGHT])]
  rw [band_loop_starts_256]
  simp only [List.foldl_cons, List.foldl_nil, BLOCK_WIDTH, BLOCK_HEIGHT]
  rw [last_band_start_256]

/-- `run_kernel` after `run_kernel_on_halo` at the 256-geometry, unfolded to
its single middle-band call: it reads the same entry current generation
`k.gens k.sense` (untouched by `run_kernel_on_halo`) and continues the other
generation where `run_kernel_on_halo` left it. -/
theorem rk_unfold_256 (k : Kernel)
    (hw : k.tile_width = 256) (hh : k.tile_height = 256)
    (hx : k.halo_x = 4) (hy : k.halo_y = 4) :
    (run_kernel (run_kernel_on_halo k)).gens (1 - k.sense)
      = process_band_sse 120 128 4 120 128 128 256 4 k.a k.b (k.gens k.sense)
          ((run_kernel_on_halo k).gens (1 - k.sense)) true false := by
  have hne : ∀ s : Fin 2, s ≠ 1 - s := by decide
  have e1 : (run_kernel_on_halo k).tile_height = 256 := hh
  have e2 : (run_kernel_on_halo k).halo_y = 4 := hy
  have e3 : (run_kernel_on_halo k).tile_width = 256 := hw
  have e4 : (run_kernel_on_halo k).halo_x = 4 := hx
  have e5 : (run_kernel_on_halo k).a = k.a := rfl
  have e6 : (run_kernel_on_halo k).b = k.b := rfl
  have e7 : (run_kernel_on_halo k).sense = k.sense := rfl
  have e8 : (run_kernel_on_halo k).gens k.sense = k.gens k.sense := by
    show Function.update k.gens (1 - k.sense) _ k.sense = k.gens k.sense
    exact Function.update_noteq (hne k.sense) _ k.gens
  simp only [run_kernel]
  rw [e7, Function.update_same]
  rw [e1, e2, e3, e4, e5, e6]
  rw [band_loop_starts_256]
  simp only [List.foldl_cons, List.foldl_nil, BLOCK_WIDTH, BLOCK_HEIGHT]
  simp only [show (128 : ℕ) - 2 * 4 = 120 from rfl]
  rw [e8]

/-- Inside `rk_region`, the `run_kernel` middle band writes the full-step
value of its cached current-generation block at corner `(60, 60)`. -/
theorem band_rk_char (a b : ℚ) (cur nx : QState) (q : QuadId) (im : Bool)
    (i c : ℕ) (h : rk_region i c) :
    qsel q im (process_band_sse 120 128 4 120 128 128 256 4 a b cur nx
      true false) i c
      = qsel q im (band_block a b cur 60 60 64 64) (i - 60) (c - 60) := by
  unfold rk_region at h
  unfold band_block
  rw [band_rk_unfold, qsel_memcpy2D_all]
  simp only [memcpy2D]
  rw [if_pos ⟨by omega, by omega, by omega, by omega⟩]
  have e1 : 2 + (i - 62) = i - 60 := by omega
  have e2 : 2 + (c - 62) = c - 60 := by omega
  rw [e1, e2]

/-- On the left side columns of the middle band, the middle-band sides call
writes the full-step value of the first cached block, at corner `(60, 0)`. -/
theorem band_mid_sides_char_first (a b : ℚ) (cur nx : QState) (q : QuadId)
    (im : Bool) (i c : ℕ) (h : 62 ≤ i ∧ i < 122 ∧ c < 62) :
    qsel q im (process_band_sse 120 128 4 120 128 128 256 4 a b cur nx
      false true) i c
      = qsel q im (band_block a b cur 60 0 64 64) (i - 60) c := by
  unfold band_block
  rw [band_mid_sides_unfold, qsel_memcpy2D_all]
  simp only [memcpy2D]
  rw [if_neg (by omega), qsel_memcpy2D_all]
  simp only [memcpy2D]
  rw [if_pos ⟨by omega, by omega, by omega, by omega⟩]
  have e1 : 2 + (i - 62) = i - 60 := by omega
  have e2 : 0 + (c - 0) = c := by omega
  rw [e1, e2]

/-- On the right side columns of the middle band, the middle-band sides call
writes the full-step value of the last cached block, at corner `(60, 120)`. -/
theorem band_mid_sides_char_last (a b : ℚ) (cur nx : QState) (q : QuadId)
    (im : Bool) (i c : ℕ) (h : 62 ≤ i ∧ i < 122 ∧ 122 ≤ c ∧ c < 128) :
    qsel q im (process_band_sse 120 128 4 120 128 128 256 4 a b cur nx
      false true) i c
      = qsel q im (band_block a b cur 60 120 8 64) (i - 60) (c - 120) := by
  unfold band_block
  rw [band_mid_sides_unfold, qsel_memcpy2D_all]
  simp only [memcpy2D]
  rw [if_pos ⟨by omega, by omega, by omega, by omega⟩]
  have e1 : 2 + (i - 62) = i - 60 := by omega
  have e2 : 2 + (c - 122) = c - 120 := by omega
  rw [e1, e2]

/-- On the left columns of the first band, the first-band call writes the
full-step value of its first cached block, at corner `(0, 0)`. -/
theorem band_first_char_first (a b : ℚ) (cur nx : QState) (q : QuadId)
    (im : Bool) (i c : ℕ) (h : i < 62 ∧ c < 62) :
    qsel q im (process_band_sse 0 128 0 124 128 128 256 4 a b cur nx
      true true) i c
      = qsel q im (band_block a b cur 0 0 64 64) i c := by
  unfold band_block
  rw [band_first_unfold, qsel_memcpy2D_all]
  simp only [memcpy2D]
  rw [if_neg (by omega), qsel_memcpy2D_all]
  simp only [memcpy2D]
  rw [if_neg (by omega), qsel_memcpy2D_all]
  simp only [memcpy2D]
  rw [if_pos ⟨by omega, by omega, by omega, by omega⟩]
  have e1 : 0 + (i - 0) = i := by omega
  have e2 : 0 + (c - 0) = c := by omega
  rw [e1, e2]

/-- On the middle columns of the first band, the first-band call writes the
full-step value of its middle cached block, at corner `(0, 60)`. -/
theorem band_first_char_mid (a b : ℚ) (cur nx : QState) (q : QuadId)
    (im : Bool) (i c : ℕ) (h : i < 62 ∧ 62 ≤ c ∧ c < 122) :
    qsel q im (process_band_sse 0 128 0 124 128 128 256 4 a b cur nx
      true true) i c
      = qsel q im (band_block a b cur 0 60 64 64) i (c - 60) := by
  unfold band_block
  rw [band_first_unfold, qsel_memcpy2D_all]
  simp only [memcpy2D]
  rw [if_pos ⟨by omega, by omega, by omega, by omega⟩]
  have e1 : 0 + (i - 0) = i := by omega
  have e2 : 2 + (c - 62) = c - 60 := by omega
  rw [e1, e2]

/-- On the right columns of the first band, the first-band call writes the
full-step value of its last cached block, at corner `(0, 120)`. -/
theorem band_first_char_last (a b : ℚ) (cur nx : QState) (q : QuadId)
    (im : Bool) (i c : ℕ) (h : i < 62 ∧ 122 ≤ c ∧ c < 128) :
    qsel q im (process_band_sse 0 128 0 124 128 128 256 4 a b cur nx
      true true) i c
      = qsel q im (band_block a b cur 0 120 8 64) i (c - 120) := by
  unfold band_block
  rw [band_first_unfold, qsel_memcpy2D_all]
  simp only [memcpy2D]
  rw [if_neg (by omega), qsel_memcpy2D_all]
  simp only [memcpy2D]
  rw [if_pos ⟨by omega, by omega, by omega, by omega⟩]
  have e1 : 0 + (i - 0) = i := by omega
  have e2 : 2 + (c - 122) = c - 120 := by omega
  rw [e1, e2]

/-- On the left columns of the last band, the last-band call writes the
full-step value of its first cached block, at corner `(120, 0)`. -/
theorem band_last_char_first (a b : ℚ) (cur nx : QState) (q : QuadId)
    (im : Bool) (i c : ℕ) (h : 122 ≤ i ∧ i < 128 ∧ c < 62) :
    qsel q im (process_band_sse 240 16 4 12 128 128 256 4 a b cur nx
      true true) i c
      = qsel q im (band_block a b cur 120 0 64 8) (i - 120) c := by
  unfold band_block
  rw [band_last_unfold, qsel_memcpy2D_all]
  simp only [memcpy2D]
  rw [if_neg (by omega), qsel_memcpy2D_all]
  simp only [memcpy2D]
  rw [if_neg (by omega), qsel_memcpy2D_all]
  simp only [memcpy2D]
  rw [if_pos ⟨by omega, by omega, by omega, by omega⟩]
  have e1 : 2 + (i - 122) = i - 120 := by omega
  have e2 : 0 + (c - 0) = c := by omega
  rw [e1, e2]

/-- On the middle columns of the last band, the last-band call writes the
full-step value of its middle cached block, at corner `(120, 60)`. -/
theorem band_last_char_mid (a b : ℚ) (cur nx : QState) (q : QuadId)
    (im : Bool) (i c : ℕ) (h : 122 ≤ i ∧ i < 128 ∧ 62 ≤ c ∧ c < 122) :
    qsel q im (process_band_sse 240 16 4 12 128 128 256 4 a b cur nx
      true true) i c
      = qsel q im (band_block a b cur 120 60 64 8) (i - 120) (c - 60) := by
  unfold band_block
  rw [band_last_unfold, qsel_memcpy2D_all]
  simp only [memcpy2D]
  rw [if_pos ⟨by omega, by omega, by omega, by omega⟩]
  have e1 : 2 + (i - 122) = i - 120 := by omega
  have e2 : 2 + (c - 62) = c - 60 := by omega
  rw [e1, e2]

/-- On the right columns of the last band, the last-band call writes the
full-step value of its last cached block, at corner `(120, 120)`. -/
theorem band_last_char_last (a b : ℚ) (cur nx : QState) (q : QuadId)
    (im : Bool) (i c : ℕ) (h : 122 ≤ i ∧ i < 128 ∧ 122 ≤ c ∧ c < 128) :
    qsel q im (process_band_sse 240 16 4 12 128 128 256 4 a b cur nx
      true true) i c
      = qsel q im (band_block a b cur 120 120 8 8) (i - 120) (c - 120) := by
  unfold band_block
  rw [band_last_unfold, qsel_memcpy2D_all]
  simp only [memcpy2D]
  rw [if_neg (by omega), qsel_memcpy2D_all]
  simp only [memcpy2D]
  rw [if_pos ⟨by omega, by omega, by omega, by omega⟩]
  have e1 : 2 + (i - 122) = i - 120 := by omega
  have e2 : 2 + (c - 122) = c - 120 := by omega
  rw [e1, e2]

/-- C1 (amended): the per-iteration order consistent with the code runs
`run_kernel_on_halo` before `run_kernel`, with the single generation flip
performed inside `run_kernel` at the very end of the step.  At the 256×256,
halo-4 geometry: both calls leave the entry-current generation untouched and
write only the other generation; the flag is unchanged by
`run_kernel_on_halo` and flips exactly once, inside `run_kernel`; the two
calls write complementary regions — `run_kernel` the interior of its middle
band, `run_kernel_on_halo` everything else — which partition the tile; each
call leaves every site outside its region untouched; and each call really
writes every site of its region: the final value there is the full-step
value of the corresponding cached block of the entry current generation
`k.gens k.sense` (so it is determined by the current generation alone,
independent of the previous contents of the next-generation buffer, and both
calls read the same current-generation buffer).  Hence every site of the
next-generation buffer is written by exactly one of the two calls. -/
theorem iteration_rkoh_then_rk (k : Kernel)
    (hw : k.tile_width = 256) (hh : k.tile_height = 256)
    (hx : k.halo_x = 4) (hy : k.halo_y = 4) :
    (run_kernel_on_halo k).sense = k.sense
    ∧ (run_kernel (run_kernel_on_halo k)).sense = 1 - k.sense
    ∧ (run_kernel_on_halo k).gens k.sense = k.gens k.sense
    ∧ (run_kernel (run_kernel_on_halo k)).gens k.sense = k.gens k.sense
    ∧ (∀ i c, i < 128 → c < 128 →
        (rk_region i c ∨ rkoh_region i c) ∧ ¬(rk_region i c ∧ rkoh_region i c))
    ∧ (∀ (q : QuadId) (im : Bool) (i c : ℕ), ¬rkoh_region i c →
        qsel q im ((run_kernel_on_halo k).gens (1 - k.sense)) i c
          = qsel q im (k.gens (1 - k.sense)) i c)
    ∧ (∀ (q : QuadId) (im : Bool) (i c : ℕ), ¬rk_region i c →
        qsel q im ((run_kernel (run_kernel_on_halo k)).gens (1 - k.sense)) i c
          = qsel q im ((run_kernel_on_halo k).gens (1 - k.sense)) i c)
    ∧ (∀ (q : QuadId) (im : Bool) (i c : ℕ), rk_region i c →
        qsel q im ((run_kernel (run_kernel_on_halo k)).gens (1 - k.sense)) i c
          = qsel q im (band_block k.a k.b (k.gens k.sense) 60 60 64 64)
              (i - 60) (c - 60))
    ∧ (∀ (q : QuadId) (im : Bool) (i c : ℕ), i < 62 ∧ c < 62 →
        qsel q im ((run_kernel_on_halo k).gens (1 - k.sense)) i c
          = qsel q im (band_block k.a k.b (k.gens k.sense) 0 0 64 64) i c)
    ∧ (∀ (q : QuadId) (im : Bool) (i c : ℕ), i < 62 ∧ 62 ≤ c ∧ c < 122 →
        qsel q im ((run_kernel_on_halo k).gens (1 - k.sense)) i c
          = qsel q im (band_block k.a k.b (k.gens k.sense) 0 60 64 64)
              i (c - 60))
    ∧ (∀ (q : QuadId) (im : Bool) (i c : ℕ), i < 62 ∧ 122 ≤ c ∧ c < 128 →
        qsel q im ((run_kernel_on_halo k).gens (1 - k.sense)) i c
          = qsel q im (band_block k.a k.b (k.gens k.sense) 0 120 8 64)
              i (c - 120))
    ∧ (∀ (q : QuadId) (im : Bool) (i c : ℕ), 62 ≤ i ∧ i < 122 ∧ c < 62 →
        qsel q im ((run_kernel_on_halo k).gens (1 - k.sense)) i c
          = qsel q im (band_block k.a k.b (k.gens k.sense) 60 0 64 64)
              (i - 60) c)
    ∧ (∀ (q : QuadId) (im : Bool) (i c : ℕ),
        62 ≤ i ∧ i < 122 ∧ 122 ≤ c ∧ c < 128 →
        qsel q im ((run_kernel_on_halo k).gens (1 - k.sense)) i c
          = qsel q im (band_block k.a k.b (k.gens k.sense) 60 120 8 64)
              (i - 60) (c - 120))
    ∧ (∀ (q : QuadId) (im : Bool) (i c : ℕ), 122 ≤ i ∧ i < 128 ∧ c < 62 →
        qsel q im ((run_kernel_on_halo k).gens (1 - k.sense)) i c
          = qsel q im (band_block k.a k.b (k.gens k.sense) 120 0 64 8)
              (i - 120) c)
    ∧ (∀ (q : QuadId) (im : Bool) (i c : ℕ),
        122 ≤ i ∧ i < 128 ∧ 62 ≤ c ∧ c < 122 →
        qsel q im ((run_kernel_on_halo k).gens (1 - k.sense)) i c
          = qsel q im (band_block k.a k.b (k.gens k.sense) 120 60 64 8)
              (i - 120) (c - 60))
    ∧ (∀ (q : QuadId) (im : Bool) (i c : ℕ),
        122 ≤ i ∧ i < 128 ∧ 122 ≤ c ∧ c < 128 →
        qsel q im ((run_kernel_on_halo k).gens (1 - k.sense)) i c
          = qsel q im (band_block k.a k.b (k.gens k.sense) 120 120 8 8)
              (i - 120) (c - 120)) := by
  have hne : ∀ s : Fin 2, s ≠ 1 - s := by decide
  have hpres1 : (run_kernel_on_halo k).gens k.sense = k.gens k.sense := by
    show Function.update k.gens (1 - k.sense) _ k.sense = k.gens k.sense
    exact Function.update_noteq (hne k.sense) _ k.gens
  refine ⟨rfl, rfl, hpres1, ?_, ?_, ?_, ?_, ?_, ?_, ?_, ?_, ?_, ?_, ?_, ?_, ?_⟩
  · show Function.update (run_kernel_on_halo k).gens
      (1 - (run_kernel_on_halo k).sense) _ k.sense = k.gens k.sense
    have e7 : (run_kernel_on_halo k).sense = k.sense := rfl
    rw [e7, Function.update_noteq (hne k.sense) _ (run_kernel_on_halo k).gens]
    exact hpres1
  · intro i c hi hc
    unfold rk_region rkoh_region
    exact ⟨by omega, by omega⟩
  · intro q im i c h
    unfold rkoh_region at h
    rw [rkoh_unfold_256 k hw hh hx hy]
    rw [band_last_frame _ _ _ _ q im i c (by omega)]
    rw [band_first_frame _ _ _ _ q im i c (by omega)]
    rw [band_mid_sides_frame _ _ _ _ q im i c (by omega)]
  · intro q im i c h
    rw [rk_unfold_256 k hw hh hx hy]
    rw [band_rk_frame _ _ _ _ q im i c h]
  · intro q im i c h
    rw [rk_unfold_256 k hw hh hx hy]
    rw [band_rk_char _ _ _ _ q im i c h]
  · intro q im i c h
    rw [rkoh_unfold_256 k hw hh hx hy]
    rw [band_last_frame _ _ _ _ q im i c (by omega)]
    rw [band_first_char_first _ _ _ _ q im i c h]
  · intro q im i c h
    rw [rkoh_unfold_256 k hw hh hx hy]
    rw [band_last_frame _ _ _ _ q im i c (by omega)]
    rw [band_first_char_mid _ _ _ _ q im i c h]
  · intro q im i c h
    rw [rkoh_unfold_256 k hw hh hx hy]
    rw [band_last_frame _ _ _ _ q im i c (by omega)]
    rw [band_first_char_last _ _ _ _ q im i c h]
  · intro q im i c h
    rw [rkoh_unfold_256 k hw hh hx hy]
    rw [band_last_frame _ _ _ _ q im i c (by omega)]
    rw [band_first_frame _ _ _ _ q im i c (by omega)]
    rw [band_mid_sides_char_first _ _ _ _ q im i c h]
  · intro q im i c h
    rw [rkoh_unfold_256 k hw hh hx hy]
    rw [band_last_frame _ _ _ _ q im i c (by omega)]
    rw [band_first_frame _ _ _ _ q im i c (by omega)]
    rw [band_mid_sides_char_last _ _ _ _ q im i c h]
  · intro q im i c h
    rw [rkoh_unfold_256 k hw hh hx hy]
    rw [band_last_char_first _ _ _ _ q im i c h]
  · intro q im i c h
    rw [rkoh_unfold_256 k hw hh hx hy]
    rw [band_last_char_mid _ _ _ _ q im i c h]
  · intro q im i c h
    rw [rkoh_unfold_256 k hw hh hx hy]
    rw [band_last_char_last _ _ _ _ q im i c h]


/-- C5 (witness): the first transfer after the initial collective wait is a
horizontal receive, strictly between the two waits. -/
theorem halo_exchange_two_phase_witness :
    (finish_halo_exchange_ops.get ⟨1, by decide⟩).borderOf
      = some BorderKind.horizontal :=
  (halo_exchange_two_phase.2.2.2.2.2.2.2.2 ⟨1, by decide⟩ (by decide)).1

/-- C1 (amended, witness): the order facts at the concrete 256×256 kernel. -/
theorem iteration_rkoh_then_rk_witness :
    (run_kernel_on_halo zeroKernel256).sense = zeroKernel256.sense
    ∧ (run_kernel (run_kernel_on_halo zeroKernel256)).sense
        = 1 - zeroKernel256.sense :=
  ⟨(iteration_rkoh_then_rk zeroKernel256 rfl rfl rfl rfl).1,
   (iteration_rkoh_then_rk zeroKernel256 rfl rfl rfl rfl).2.1⟩


end TrotterSuzuki
